import Mathlib

set_option maxRecDepth 100000

/-! # Model of the mcp-docker-exec command-execution pipeline

Shallow embedding of the core components of the repository (StreamDemuxer,
CircularBuffer, the ExecSession buffered loop, CircuitBreaker, the
ErrorHandler sanitizer, ShellCommandParser and SecurityManager), translated
from the TypeScript sources, together with theorems settling the
specification's claims about them.

Representation conventions:
* a byte stream is a `List Nat` with every element `< 256`;
* a JS string is a sequence of UTF-16 code units, also a `List Nat`
  (`Buffer.toString('utf8')` decodes bytes to code units per WHATWG with
  U+FFFD replacement and surrogate pairs for astral code points;
  `Buffer.byteLength(s, 'utf8')` is the UTF-8 re-encoding byte count);
* strings handled by the parser / security layer / sanitizer, which are
  ordinary text, are `List Char` for readability (identical to code units
  on the BMP inputs involved). -/

/-! ## UTF-8 / UTF-16 primitives (Node `Buffer` semantics) -/

def isCont (b : Nat) : Bool := 128 ≤ b && b ≤ 191

/-- Decode one UTF-8 sequence at the head of a byte list: the emitted UTF-16
code units and the number of bytes consumed (WHATWG maximal-subpart error
handling, as Node's `Buffer.toString('utf8')` implements it). -/
def utf8DecodeOne : List Nat → List Nat × Nat
  | [] => ([], 1)
  | b :: rest =>
    if b < 128 then ([b], 1)
    else if 194 ≤ b && b ≤ 223 then
      match rest with
      | b2 :: _ => if isCont b2 then ([(b - 192) * 64 + (b2 - 128)], 2) else ([65533], 1)
      | [] => ([65533], 1)
    else if 224 ≤ b && b ≤ 239 then
      let lo := if b = 224 then 160 else 128
      let hi := if b = 237 then 159 else 191
      match rest with
      | b2 :: rest2 =>
        if lo ≤ b2 && b2 ≤ hi then
          match rest2 with
          | b3 :: _ =>
            if isCont b3 then ([(b - 224) * 4096 + (b2 - 128) * 64 + (b3 - 128)], 3)
            else ([65533], 2)
          | [] => ([65533], 2)
        else ([65533], 1)
      | [] => ([65533], 1)
    else if 240 ≤ b && b ≤ 244 then
      let lo := if b = 240 then 144 else 128
      let hi := if b = 244 then 143 else 191
      match rest with
      | b2 :: rest2 =>
        if lo ≤ b2 && b2 ≤ hi then
          match rest2 with
          | b3 :: rest3 =>
            if isCont b3 then
              match rest3 with
              | b4 :: _ =>
                if isCont b4 then
                  ([55296 + ((b - 240) * 262144 + (b2 - 128) * 4096 + (b3 - 128) * 64 + (b4 - 128) - 65536) / 1024,
                    56320 + ((b - 240) * 262144 + (b2 - 128) * 4096 + (b3 - 128) * 64 + (b4 - 128) - 65536) % 1024], 4)
                else ([65533], 3)
              | [] => ([65533], 3)
            else ([65533], 2)
          | [] => ([65533], 2)
        else ([65533], 1)
      | [] => ([65533], 1)
    else ([65533], 1)

/-- `Buffer.toString('utf8')`: decode a byte list to UTF-16 code units.
`utf8DecodeOne` always consumes at least one byte; the `= 0` branch is
unreachable and only discharges termination. -/
def decodeUtf8 (l : List Nat) : List Nat :=
  if l.isEmpty then []
  else if (utf8DecodeOne l).2 = 0 then (utf8DecodeOne l).1
  else (utf8DecodeOne l).1 ++ decodeUtf8 (l.drop (utf8DecodeOne l).2)
termination_by l.length
decreasing_by
  have h2 : 0 < l.length := by
    cases l with
    | nil => simp_all
    | cons a t => simp
  simp [List.length_drop]
  omega

lemma decodeUtf8_nil : decodeUtf8 [] = [] := by simp [decodeUtf8.eq_def]

lemma decodeUtf8_ascii_cons (b : Nat) (l : List Nat) (hb : b < 128) :
    decodeUtf8 (b :: l) = b :: decodeUtf8 l := by
  rw [decodeUtf8.eq_def]
  simp [utf8DecodeOne, hb]

lemma decodeUtf8_ascii (l : List Nat) (h : ∀ b ∈ l, b < 128) : decodeUtf8 l = l := by
  induction l with
  | nil => exact decodeUtf8_nil
  | cons b t ih =>
    rw [decodeUtf8_ascii_cons b t (h b (by simp))]
    rw [ih (fun x hx => h x (by simp [hx]))]

/-- `Buffer.byteLength(s, 'utf8')` over UTF-16 code units: 1 byte below 0x80,
2 below 0x800, 4 for a surrogate pair, 3 otherwise (a lone surrogate
re-encodes as the 3-byte replacement character in Node). -/
def utf8Len : List Nat → Nat
  | [] => 0
  | u :: rest =>
    if u < 128 then 1 + utf8Len rest
    else if u < 2048 then 2 + utf8Len rest
    else if 55296 ≤ u && u ≤ 56319 then
      match rest with
      | u2 :: rest2 =>
        if 56320 ≤ u2 && u2 ≤ 57343 then 4 + utf8Len rest2 else 3 + utf8Len (u2 :: rest2)
      | [] => 3
    else 3 + utf8Len rest
termination_by l => l.length
decreasing_by all_goals (simp [List.length_cons]; try omega)

lemma utf8Len_nil : utf8Len [] = 0 := utf8Len.eq_1

lemma utf8Len_ascii_cons (b : Nat) (l : List Nat) (hb : b < 128) :
    utf8Len (b :: l) = 1 + utf8Len l := by
  rw [utf8Len.eq_def]
  simp [hb]

lemma utf8Len_ascii (l : List Nat) (h : ∀ b ∈ l, b < 128) : utf8Len l = l.length := by
  induction l with
  | nil => simp [utf8Len_nil]
  | cons b t ih =>
    rw [utf8Len_ascii_cons b t (h b (by simp))]
    rw [ih (fun x hx => h x (by simp [hx]))]
    simp [Nat.add_comm]

/-! ## StreamDemuxer (src/docker/StreamDemuxer.ts)

The demultiplexer consumes a stream of byte buffers ("arrivals") and yields
channel-tagged text chunks.  Timestamps (wall-clock capture times) are not
modelled.  `demuxStream` models one full run of the async generator over a
finite stream; the `Bool` component records whether the buffer-overflow
error was thrown. -/

inductive Channel where
  | stdout
  | stderr
deriving DecidableEq, Repr

structure DChunk where
  channel : Channel
  data : List Nat
deriving DecidableEq, Repr

def HEADER_SIZE : Nat := 8

def MAX_FRAME_SIZE : Nat := 10485760

def MAX_BUFFER_SIZE : Nat := 52428800

/-- `Buffer.readUInt32BE` of the first four bytes (call sites guarantee at
least four bytes are present). -/
def readU32 : List Nat → Nat
  | b0 :: b1 :: b2 :: b3 :: _ => ((b0 * 256 + b1) * 256 + b2) * 256 + b3
  | _ => 0

/-- `StreamDemuxer.isValidHeader`: stream type 1 or 2, three zero bytes,
strictly positive declared size at most `MAX_FRAME_SIZE`. -/
def isValidHeader (h : List Nat) : Bool :=
  match h with
  | t :: z1 :: z2 :: z3 :: s0 :: s1 :: s2 :: s3 :: _ =>
    (t == 1 || t == 2) && (z1 == 0) && (z2 == 0) && (z3 == 0) &&
      decide (0 < readU32 [s0, s1, s2, s3]) && decide (readU32 [s0, s1, s2, s3] ≤ MAX_FRAME_SIZE)
  | _ => false

/-- `StreamDemuxer.detectMultiplexed`: validate the first header and, when
enough data is buffered, cross-validate the second header. -/
def detectMultiplexed (buffer : List Nat) : Bool :=
  if buffer.length < HEADER_SIZE then true
  else if ¬ isValidHeader (buffer.take HEADER_SIZE) then false
  else if HEADER_SIZE + readU32 ((buffer.take HEADER_SIZE).drop 4) + HEADER_SIZE ≤ buffer.length then
    isValidHeader ((buffer.drop (HEADER_SIZE + readU32 ((buffer.take HEADER_SIZE).drop 4))).take HEADER_SIZE)
  else true

/-- The corruption-recovery scan of `demuxStream`: try positions `i, i+1, ...`
while `i < buffer.length - HEADER_SIZE` (so the final 8-byte position is
never examined), returning the first position whose 8-byte slice validates. -/
def scanHeader (buffer : List Nat) (i : Nat) : Option Nat :=
  if i + HEADER_SIZE < buffer.length then
    if isValidHeader ((buffer.drop i).take HEADER_SIZE) then some i
    else scanHeader buffer (i + 1)
  else none
termination_by buffer.length - i

/-- The payload-emission loop of `demuxStream`: slice the payload from
`offset`, decode each slice, and advance `offset` by the *decoded string's
length* (UTF-16 units), exactly as the source does.  With a positive
`chunkSize` every decoded slice is nonempty, so the `= 0` guard (where the
JS loop would never terminate) is unreachable. -/
def slicePayload (chunkSize : Nat) (payload : List Nat) (offset : Nat) : List (List Nat) :=
  if offset < payload.length then
    if (decodeUtf8 ((payload.drop offset).take chunkSize)).length = 0 then []
    else
      decodeUtf8 ((payload.drop offset).take chunkSize) ::
        slicePayload chunkSize payload (offset + (decodeUtf8 ((payload.drop offset).take chunkSize)).length)
  else []
termination_by payload.length - offset

/-- The framed-mode `while (processed && buffer.length >= HEADER_SIZE)` loop
of `demuxStream`, returning the emitted chunks and the residual buffer.
After a successful corruption recovery the source executes `continue` with
`processed` still `false`, so the loop exits at once; the recovered bytes
stay in the buffer for the next arrival. -/
def framedLoop (chunkSize : Nat) (buffer : List Nat) : List DChunk × List Nat :=
  if HEADER_SIZE ≤ buffer.length then
    if isValidHeader (buffer.take HEADER_SIZE) then
      if buffer.length < HEADER_SIZE + readU32 ((buffer.take HEADER_SIZE).drop 4) then ([], buffer)
      else
        ((slicePayload chunkSize
              ((buffer.drop HEADER_SIZE).take (readU32 ((buffer.take HEADER_SIZE).drop 4))) 0).map
            (fun d =>
              ⟨if (buffer.take HEADER_SIZE).headD 0 = 1 then Channel.stdout else Channel.stderr, d⟩) ++
            (framedLoop chunkSize
              (buffer.drop (HEADER_SIZE + readU32 ((buffer.take HEADER_SIZE).drop 4)))).1,
          (framedLoop chunkSize
            (buffer.drop (HEADER_SIZE + readU32 ((buffer.take HEADER_SIZE).drop 4)))).2)
    else
      match scanHeader buffer 1 with
      | some i => ([], buffer.drop i)
      | none => ([⟨.stdout, decodeUtf8 buffer⟩], [])
  else ([], buffer)
termination_by buffer.length
decreasing_by all_goals (simp_all [HEADER_SIZE, List.length_drop]; try omega)

/-- The plain-text branch of `demuxStream`: drain the buffer in slices of at
most `chunkSize` bytes (for `chunkSize = 0` the JS loop would never
terminate; that branch is modelled as ending). -/
def unframedSlices (chunkSize : Nat) (buffer : List Nat) : List (List Nat) :=
  if 0 < buffer.length then
    if 0 < min buffer.length chunkSize then
      decodeUtf8 (buffer.take (min buffer.length chunkSize)) ::
        unframedSlices chunkSize (buffer.drop (min buffer.length chunkSize))
    else []
  else []
termination_by buffer.length
decreasing_by simp [List.length_drop]; omega

structure DemuxState where
  buffer : List Nat
  isMultiplexed : Option Bool
deriving DecidableEq, Repr

/-- Processing of one incoming stream chunk by `demuxStream`: append to the
buffer, run multiplex detection once at least 8 bytes are available, then
drain the buffer in the detected mode. -/
def demuxStep (chunkSize : Nat) (st : DemuxState) (incoming : List Nat) :
    List DChunk × DemuxState :=
  match (if st.isMultiplexed = none ∧ HEADER_SIZE ≤ (st.buffer ++ incoming).length then
          some (detectMultiplexed (st.buffer ++ incoming))
         else st.isMultiplexed) with
  | some false =>
    ((unframedSlices chunkSize (st.buffer ++ incoming)).map (fun d => ⟨.stdout, d⟩),
      ⟨[], some false⟩)
  | some true =>
    ((framedLoop chunkSize (st.buffer ++ incoming)).1,
      ⟨(framedLoop chunkSize (st.buffer ++ incoming)).2, some true⟩)
  | none => ([], ⟨st.buffer ++ incoming, none⟩)

/-- Run `demuxStream` over the remaining arrivals from a state.  The
overflow check (`buffer.length > MAX_BUFFER_SIZE` before concatenation)
throws, which kills the generator: no further chunk and no trailing emission
(`Bool` result records that error).  At end of stream any residual buffer is
emitted as one final stdout chunk. -/
def demuxRun (chunkSize : Nat) (st : DemuxState) : List (List Nat) → List DChunk × Bool
  | [] => (if st.buffer.isEmpty then [] else [⟨.stdout, decodeUtf8 st.buffer⟩], false)
  | a :: as =>
    if MAX_BUFFER_SIZE < st.buffer.length then ([], true)
    else
      ((demuxStep chunkSize st a).1 ++ (demuxRun chunkSize (demuxStep chunkSize st a).2 as).1,
        (demuxRun chunkSize (demuxStep chunkSize st a).2 as).2)

/-- `StreamDemuxer.demuxStream` on a finite stream of arrivals. -/
def demuxStream (chunkSize : Nat) (arrivals : List (List Nat)) : List DChunk × Bool :=
  demuxRun chunkSize ⟨[], none⟩ arrivals

/-- The 8-byte multiplex header for stream type `t` and payload length `n`
(big-endian length in bytes 4-7). -/
def mkHeader (t n : Nat) : List Nat :=
  [t, 0, 0, 0, n / 16777216 % 256, n / 65536 % 256, n / 256 % 256, n % 256]

lemma mkHeader_length (t n : Nat) : (mkHeader t n).length = HEADER_SIZE := by
  simp [mkHeader, HEADER_SIZE]

lemma readU32_mkHeader (t n : Nat) (h : n < 4294967296) :
    readU32 ((mkHeader t n).drop 4) = n := by
  simp [mkHeader, readU32]
  omega

lemma isValidHeader_mkHeader (t n : Nat) (ht : t = 1 ∨ t = 2) (hn : 0 < n)
    (hm : n ≤ MAX_FRAME_SIZE) : isValidHeader (mkHeader t n) = true := by
  have h32 : n < 4294967296 := lt_of_le_of_lt hm (by norm_num [MAX_FRAME_SIZE])
  have hv : ((n / 16777216 % 256 * 256 + n / 65536 % 256) * 256 + n / 256 % 256) * 256 + n % 256 = n := by
    omega
  simp [mkHeader, isValidHeader, readU32, hv]
  rcases ht with h | h <;> simp [h, hn, hm]

lemma isValidHeader_cons_ne (b : Nat) (l : List Nat) (h1 : b ≠ 1) (h2 : b ≠ 2) :
    isValidHeader (b :: l) = false := by
  rcases l with _ | ⟨a1, _ | ⟨a2, _ | ⟨a3, _ | ⟨a4, _ | ⟨a5, _ | ⟨a6, _ | ⟨a7, tl⟩⟩⟩⟩⟩⟩⟩ <;>
    simp [isValidHeader, h1, h2]

lemma isValidHeader_size_zero (b0 b1 b2 b3 b4 b5 b6 b7 : Nat) (tl : List Nat)
    (hz : readU32 [b4, b5, b6, b7] = 0) :
    isValidHeader (b0 :: b1 :: b2 :: b3 :: b4 :: b5 :: b6 :: b7 :: tl) = false := by
  simp [isValidHeader, hz]

lemma framedLoop_nil (c : Nat) : framedLoop c [] = ([], []) := by
  rw [framedLoop.eq_def]
  simp [HEADER_SIZE]

lemma framedLoop_frame (c t n : Nat) (p rest : List Nat)
    (ht : t = 1 ∨ t = 2) (hn : 0 < n) (hm : n ≤ MAX_FRAME_SIZE) (hp : p.length = n) :
    framedLoop c (mkHeader t n ++ (p ++ rest)) =
      ((slicePayload c p 0).map
          (fun d => DChunk.mk (if t = 1 then Channel.stdout else Channel.stderr) d)
        ++ (framedLoop c rest).1,
       (framedLoop c rest).2) := by
  have h32 : n < 4294967296 := lt_of_le_of_lt hm (by norm_num [MAX_FRAME_SIZE])
  have hlen : (mkHeader t n).length = HEADER_SIZE := mkHeader_length t n
  have htake : (mkHeader t n ++ (p ++ rest)).take HEADER_SIZE = mkHeader t n :=
    List.take_left' hlen
  have hdrop : (mkHeader t n ++ (p ++ rest)).drop HEADER_SIZE = p ++ rest :=
    List.drop_left' hlen
  have hlen2 : (mkHeader t n ++ (p ++ rest)).length = HEADER_SIZE + (n + rest.length) := by
    simp [List.length_append, hlen, hp]
    try omega
  have hge : HEADER_SIZE ≤ (mkHeader t n ++ (p ++ rest)).length := by
    rw [hlen2]; omega
  have hnotlt : ¬ ((mkHeader t n ++ (p ++ rest)).length < HEADER_SIZE + n) := by
    rw [hlen2]; omega
  have htkp : (p ++ rest).take n = p := List.take_left' hp
  have hdl : (mkHeader t n ++ (p ++ rest)).drop (HEADER_SIZE + n) = rest := by
    rw [show mkHeader t n ++ (p ++ rest) = (mkHeader t n ++ p) ++ rest by simp]
    exact List.drop_left' (by simp [List.length_append, hlen, hp]; try omega)
  have hhead : (mkHeader t n).headD 0 = t := by simp [mkHeader]
  rw [framedLoop.eq_def]
  rw [if_pos hge, htake, isValidHeader_mkHeader t n ht hn hm, if_pos rfl,
    readU32_mkHeader t n h32, if_neg hnotlt, hdrop, htkp, hhead, hdl]

lemma scanHeader_garbage (t n : Nat) (p : List Nat)
    (ht : t = 1 ∨ t = 2) (hn : 0 < n) (hm : n ≤ MAX_FRAME_SIZE) (hp : p.length = n) :
    scanHeader (255 :: 255 :: 255 :: (mkHeader t n ++ p)) 1 = some 3 := by
  have hlenb : (255 :: 255 :: 255 :: (mkHeader t n ++ p)).length = 11 + n := by
    simp [mkHeader, hp]
    omega
  have htk : ((255 :: 255 :: 255 :: (mkHeader t n ++ p)).drop 3).take HEADER_SIZE = mkHeader t n := by
    simp only [List.drop_succ_cons, List.drop_zero]
    exact List.take_left' (mkHeader_length t n)
  rw [scanHeader.eq_def]
  rw [if_pos (by rw [hlenb]; simp [HEADER_SIZE]; omega)]
  rw [if_neg (by
    simp only [List.drop_one, List.tail_cons]
    rw [show ((255 : Nat) :: 255 :: (mkHeader t n ++ p)).take HEADER_SIZE =
      255 :: ((255 :: (mkHeader t n ++ p)).take 7) by simp [HEADER_SIZE]]
    simp [isValidHeader_cons_ne 255 _ (by omega) (by omega)])]
  rw [scanHeader.eq_def]
  rw [if_pos (by rw [hlenb]; simp [HEADER_SIZE]; omega)]
  rw [if_neg (by
    rw [show ((255 : Nat) :: 255 :: 255 :: (mkHeader t n ++ p)).drop 2 =
      255 :: (mkHeader t n ++ p) by simp]
    rw [show ((255 : Nat) :: (mkHeader t n ++ p)).take HEADER_SIZE =
      255 :: ((mkHeader t n ++ p).take 7) by simp [HEADER_SIZE]]
    simp [isValidHeader_cons_ne 255 _ (by omega) (by omega)])]
  rw [scanHeader.eq_def]
  rw [if_pos (by rw [hlenb]; simp [HEADER_SIZE]; omega)]
  rw [htk, isValidHeader_mkHeader t n ht hn hm]
  simp

lemma framedLoop_garbage (c t n : Nat) (p : List Nat)
    (ht : t = 1 ∨ t = 2) (hn : 0 < n) (hm : n ≤ MAX_FRAME_SIZE) (hp : p.length = n) :
    framedLoop c (255 :: 255 :: 255 :: (mkHeader t n ++ p)) = ([], mkHeader t n ++ p) := by
  rw [framedLoop.eq_def]
  rw [if_pos (by simp [HEADER_SIZE, mkHeader])]
  rw [if_neg (by
    rw [show ((255 : Nat) :: 255 :: 255 :: (mkHeader t n ++ p)).take HEADER_SIZE =
      255 :: ((255 :: 255 :: (mkHeader t n ++ p)).take 7) by simp [HEADER_SIZE]]
    simp [isValidHeader_cons_ne 255 _ (by omega) (by omega)])]
  rw [scanHeader_garbage t n p ht hn hm hp]
  simp

lemma slicePayload_stop (c : Nat) (p : List Nat) (offset : Nat) (h : ¬ offset < p.length) :
    slicePayload c p offset = [] := by
  rw [slicePayload.eq_def, if_neg h]

lemma slicePayload_ascii_aux (c : Nat) (p : List Nat) (hc : 0 < c) (hp : ∀ b ∈ p, b < 128) :
    ∀ fuel offset, p.length - offset ≤ fuel →
      (slicePayload c p offset).flatten = p.drop offset ∧
      (∀ d ∈ slicePayload c p offset, d.length ≤ c) := by
  intro fuel
  induction fuel with
  | zero =>
    intro offset h
    rw [slicePayload_stop c p offset (by omega)]
    refine ⟨?_, by simp⟩
    simp [List.drop_eq_nil_of_le (show p.length ≤ offset by omega)]
  | succ fuel ih =>
    intro offset h
    by_cases hlt : offset < p.length
    · have hsub : ∀ b ∈ (p.drop offset).take c, b < 128 :=
        fun b hb => hp b (List.drop_subset offset p (List.take_subset c _ hb))
      have hdec : decodeUtf8 ((p.drop offset).take c) = (p.drop offset).take c :=
        decodeUtf8_ascii _ hsub
      have hslen : ((p.drop offset).take c).length = min c (p.length - offset) := by
        simp [List.length_take, List.length_drop]
      have hpos : 0 < ((p.drop offset).take c).length := by rw [hslen]; omega
      rw [slicePayload.eq_def, if_pos hlt, hdec, if_neg (by omega)]
      have hrec := ih (offset + ((p.drop offset).take c).length) (by omega)
      constructor
      · rw [List.flatten_cons, hrec.1]
        rw [← List.drop_drop]
        rcases le_or_lt c (p.length - offset) with hcle | hclt
        · rw [show ((p.drop offset).take c).length = c by rw [hslen]; omega]
          exact List.take_append_drop c (p.drop offset)
        · have hall : (p.drop offset).length ≤ c := by simp [List.length_drop]; omega
          rw [List.take_of_length_le hall]
          simp [List.drop_length]
          omega
      · intro d hd
        rcases List.mem_cons.mp hd with rfl | hd'
        · rw [hslen]; omega
        · exact hrec.2 d hd'
    · rw [slicePayload_stop c p offset hlt]
      refine ⟨?_, by simp⟩
      simp [List.drop_eq_nil_of_le (show p.length ≤ offset by omega)]

lemma slicePayload_ascii_join (c : Nat) (p : List Nat) (hc : 0 < c)
    (hp : ∀ b ∈ p, b < 128) : (slicePayload c p 0).flatten = p := by
  have := (slicePayload_ascii_aux c p hc hp p.length 0 (by omega)).1
  simpa using this

lemma slicePayload_ascii_sizes (c : Nat) (p : List Nat) (hc : 0 < c)
    (hp : ∀ b ∈ p, b < 128) : ∀ d ∈ slicePayload c p 0, d.length ≤ c :=
  (slicePayload_ascii_aux c p hc hp p.length 0 (by omega)).2

lemma slicePayload_ascii_cons_shape (c : Nat) (p : List Nat) (offset : Nat) (hc : 0 < c)
    (hp : ∀ b ∈ p, b < 128) (hlt : offset < p.length) :
    slicePayload c p offset =
      (p.drop offset).take c ::
        slicePayload c p (offset + ((p.drop offset).take c).length) := by
  have hsub : ∀ b ∈ (p.drop offset).take c, b < 128 :=
    fun b hb => hp b (List.drop_subset offset p (List.take_subset c _ hb))
  have hdec : decodeUtf8 ((p.drop offset).take c) = (p.drop offset).take c :=
    decodeUtf8_ascii _ hsub
  have hslen : ((p.drop offset).take c).length = min c (p.length - offset) := by
    simp [List.length_take, List.length_drop]
  rw [slicePayload.eq_def, if_pos hlt, hdec, if_neg (by omega)]

lemma slicePayload_ascii_two (c : Nat) (p : List Nat) (hc : 0 < c)
    (hp : ∀ b ∈ p, b < 128) (h : c < p.length) : 2 ≤ (slicePayload c p 0).length := by
  rw [slicePayload_ascii_cons_shape c p 0 hc hp (by omega)]
  rw [slicePayload_ascii_cons_shape c p _ hc hp (by
    simp [List.length_take, List.length_drop]
    omega)]
  simp

lemma unframedSlices_ascii_aux (c : Nat) (hc : 0 < c) :
    ∀ fuel buf, buf.length ≤ fuel → (∀ b ∈ buf, b < 128) →
      (unframedSlices c buf).flatten = buf ∧ ∀ d ∈ unframedSlices c buf, d.length ≤ c := by
  intro fuel
  induction fuel with
  | zero =>
    intro buf h hb
    have : buf = [] := List.eq_nil_of_length_eq_zero (by omega)
    subst this
    rw [unframedSlices.eq_def]
    simp
  | succ fuel ih =>
    intro buf h hb
    rw [unframedSlices.eq_def]
    by_cases hpos : 0 < buf.length
    · rw [if_pos hpos, if_pos (by omega)]
      have hsub : ∀ b ∈ buf.take (min buf.length c), b < 128 :=
        fun b hbm => hb b (List.take_subset _ _ hbm)
      have hdec : decodeUtf8 (buf.take (min buf.length c)) = buf.take (min buf.length c) :=
        decodeUtf8_ascii _ hsub
      have hrec := ih (buf.drop (min buf.length c))
        (by simp [List.length_drop]; omega)
        (fun b hbm => hb b (List.drop_subset _ _ hbm))
      rw [hdec]
      constructor
      · rw [List.flatten_cons, hrec.1]
        exact List.take_append_drop _ buf
      · intro d hd
        rcases List.mem_cons.mp hd with rfl | hd'
        · simp [List.length_take]
        · exact hrec.2 d hd'
    · rw [if_neg hpos]
      have : buf = [] := List.eq_nil_of_length_eq_zero (by omega)
      subst this
      simp

lemma unframedSlices_ascii (c : Nat) (buf : List Nat) (hc : 0 < c) (hb : ∀ b ∈ buf, b < 128) :
    (unframedSlices c buf).flatten = buf ∧ ∀ d ∈ unframedSlices c buf, d.length ≤ c :=
  unframedSlices_ascii_aux c hc buf.length buf le_rfl hb

lemma demuxRun_nil (c : Nat) (st : DemuxState) :
    demuxRun c st [] =
      (if st.buffer.isEmpty then [] else [⟨Channel.stdout, decodeUtf8 st.buffer⟩], false) := by
  rw [demuxRun.eq_def]

lemma demuxRun_cons (c : Nat) (st : DemuxState) (a : List Nat) (as : List (List Nat))
    (h : st.buffer.length ≤ MAX_BUFFER_SIZE) :
    demuxRun c st (a :: as) =
      ((demuxStep c st a).1 ++ (demuxRun c (demuxStep c st a).2 as).1,
        (demuxRun c (demuxStep c st a).2 as).2) := by
  rw [demuxRun.eq_def]
  simp only [if_neg (by omega : ¬ MAX_BUFFER_SIZE < st.buffer.length)]

lemma demuxStep_framed (c : Nat) (buf a : List Nat) :
    demuxStep c ⟨buf, some true⟩ a =
      ((framedLoop c (buf ++ a)).1, ⟨(framedLoop c (buf ++ a)).2, some true⟩) := by
  simp [demuxStep]

lemma demuxStep_first_true (c : Nat) (a : List Nat) (h8 : HEADER_SIZE ≤ a.length)
    (hdet : detectMultiplexed a = true) :
    demuxStep c ⟨[], none⟩ a =
      ((framedLoop c a).1, ⟨(framedLoop c a).2, some true⟩) := by
  simp [demuxStep, h8, hdet]

lemma demuxStep_first_false (c : Nat) (a : List Nat) (h8 : HEADER_SIZE ≤ a.length)
    (hdet : detectMultiplexed a = false) :
    demuxStep c ⟨[], none⟩ a =
      ((unframedSlices c a).map (fun d => ⟨Channel.stdout, d⟩), ⟨[], some false⟩) := by
  simp [demuxStep, h8, hdet]

lemma detectMultiplexed_single_frame (t n : Nat) (p : List Nat)
    (ht : t = 1 ∨ t = 2) (hn : 0 < n) (hm : n ≤ MAX_FRAME_SIZE) (hp : p.length = n) :
    detectMultiplexed (mkHeader t n ++ p) = true := by
  have h32 : n < 4294967296 := lt_of_le_of_lt hm (by norm_num [MAX_FRAME_SIZE])
  have htake : (mkHeader t n ++ p).take HEADER_SIZE = mkHeader t n :=
    List.take_left' (mkHeader_length t n)
  have hlen2 : (mkHeader t n ++ p).length = HEADER_SIZE + n := by
    simp [mkHeader, hp, HEADER_SIZE]
    omega
  rw [detectMultiplexed]
  rw [if_neg (by rw [hlen2]; omega)]
  rw [htake, isValidHeader_mkHeader t n ht hn hm]
  rw [if_neg (by simp)]
  rw [readU32_mkHeader t n h32]
  rw [if_neg (by rw [hlen2]; simp [HEADER_SIZE])]

/-- C10: `StreamDemuxer.isValidHeader` rejects every 8-byte header declaring
a zero payload length (the size must be strictly positive), so a stream
beginning with a zero-length frame is classified as unframed by
`detectMultiplexed` and the whole stream — the header bytes included — is
emitted to the caller as stdout text. -/
theorem demux_zero_length_header_rejected_unframed (t c : Nat) (rest : List Nat)
    (ht : t = 1 ∨ t = 2) (hc : 0 < c) (hrest : ∀ b ∈ rest, b < 128) :
    (∀ (b0 b1 b2 b3 b4 b5 b6 b7 : Nat) (tl : List Nat), readU32 [b4, b5, b6, b7] = 0 →
      isValidHeader (b0 :: b1 :: b2 :: b3 :: b4 :: b5 :: b6 :: b7 :: tl) = false) ∧
    detectMultiplexed (t :: 0 :: 0 :: 0 :: 0 :: 0 :: 0 :: 0 :: rest) = false ∧
    (∀ ch ∈ (demuxStream c [t :: 0 :: 0 :: 0 :: 0 :: 0 :: 0 :: 0 :: rest]).1,
      ch.channel = Channel.stdout) ∧
    ((demuxStream c [t :: 0 :: 0 :: 0 :: 0 :: 0 :: 0 :: 0 :: rest]).1.map DChunk.data).flatten =
      t :: 0 :: 0 :: 0 :: 0 :: 0 :: 0 :: 0 :: rest ∧
    (demuxStream c [t :: 0 :: 0 :: 0 :: 0 :: 0 :: 0 :: 0 :: rest]).2 = false := by
  have hdet : detectMultiplexed (t :: 0 :: 0 :: 0 :: 0 :: 0 :: 0 :: 0 :: rest) = false := by
    rw [detectMultiplexed]
    rw [if_neg (by simp [HEADER_SIZE])]
    rw [show (t :: 0 :: 0 :: 0 :: 0 :: 0 :: 0 :: 0 :: rest).take HEADER_SIZE =
      t :: 0 :: 0 :: 0 :: 0 :: 0 :: 0 :: 0 :: ([] : List Nat) by simp [HEADER_SIZE]]
    rw [isValidHeader_size_zero t 0 0 0 0 0 0 0 [] (by simp [readU32])]
    simp
  have hascii : ∀ b ∈ (t :: 0 :: 0 :: 0 :: 0 :: 0 :: 0 :: 0 :: rest), b < 128 := by
    intro b hb
    rcases ht with h | h <;> subst h <;>
      simp only [List.mem_cons] at hb <;>
      rcases hb with rfl | rfl | rfl | rfl | rfl | rfl | rfl | rfl | hb <;>
      first | omega | exact hrest b hb
  have hout : demuxStream c [t :: 0 :: 0 :: 0 :: 0 :: 0 :: 0 :: 0 :: rest] =
      ((unframedSlices c (t :: 0 :: 0 :: 0 :: 0 :: 0 :: 0 :: 0 :: rest)).map
        (fun d => ⟨Channel.stdout, d⟩), false) := by
    rw [demuxStream, demuxRun_cons c _ _ _ (by simp [MAX_BUFFER_SIZE])]
    rw [demuxStep_first_false c _ (by simp [HEADER_SIZE]) hdet]
    rw [demuxRun_nil]
    simp
  refine ⟨fun b0 b1 b2 b3 b4 b5 b6 b7 tl hz => isValidHeader_size_zero _ _ _ _ _ _ _ _ _ hz,
    hdet, ?_, ?_, ?_⟩
  · rw [hout]
    simp
  · rw [hout]
    simp only [List.map_map]
    rw [show (DChunk.data ∘ fun d => DChunk.mk Channel.stdout d) = id by rfl]
    simp [(unframedSlices_ascii c _ hc hascii).1]
  · rw [hout]

/-- Witness for the zero-length-header claim at a concrete input. -/
theorem demux_zero_length_header_rejected_unframed_witness :
    (1 = 1 ∨ 1 = 2) ∧ 0 < 4 ∧ (∀ b ∈ [104, 105], b < 128) ∧
    detectMultiplexed (1 :: 0 :: 0 :: 0 :: 0 :: 0 :: 0 :: 0 :: [104, 105]) = false ∧
    ((demuxStream 4 [1 :: 0 :: 0 :: 0 :: 0 :: 0 :: 0 :: 0 :: [104, 105]]).1.map DChunk.data).flatten =
      1 :: 0 :: 0 :: 0 :: 0 :: 0 :: 0 :: 0 :: [104, 105] := by
  refine ⟨Or.inl rfl, by omega, by simp, ?_, ?_⟩
  · exact (demux_zero_length_header_rejected_unframed 1 4 [104, 105] (Or.inl rfl) (by omega)
      (by simp)).2.1
  · exact (demux_zero_length_header_rejected_unframed 1 4 [104, 105] (Or.inl rfl) (by omega)
      (by simp)).2.2.2.1

/-- C4 (amended): for a well-formed framed stream whose single-byte (ASCII)
payload is larger than `chunkSize`, `demuxStream` yields at least two
chunks, each no larger than `chunkSize` and tagged with the frame's channel,
and the concatenation of the chunks' data reconstructs the payload exactly.
(The unrestricted claim fails for multi-byte payloads, because the source
advances its slicing offset by the decoded string's length instead of the
byte count — see the counterexample.) -/
theorem demux_framed_chunking_roundtrip_ascii (c t n : Nat) (p : List Nat)
    (ht : t = 1 ∨ t = 2) (hc : 0 < c) (hlt : c < p.length) (hp : p.length = n)
    (hm : n ≤ MAX_FRAME_SIZE) (hascii : ∀ b ∈ p, b < 128) :
    (∀ ch ∈ (demuxStream c [mkHeader t n ++ p]).1,
      ch.channel = (if t = 1 then Channel.stdout else Channel.stderr)) ∧
    ((demuxStream c [mkHeader t n ++ p]).1.map DChunk.data).flatten = p ∧
    (∀ ch ∈ (demuxStream c [mkHeader t n ++ p]).1, ch.data.length ≤ c) ∧
    2 ≤ (demuxStream c [mkHeader t n ++ p]).1.length ∧
    (demuxStream c [mkHeader t n ++ p]).2 = false := by
  have hn : 0 < n := by omega
  have hdet := detectMultiplexed_single_frame t n p ht hn hm hp
  have hout : demuxStream c [mkHeader t n ++ p] =
      ((slicePayload c p 0).map
        (fun d => DChunk.mk (if t = 1 then Channel.stdout else Channel.stderr) d), false) := by
    rw [demuxStream, demuxRun_cons c _ _ _ (by simp [MAX_BUFFER_SIZE])]
    rw [demuxStep_first_true c _ (by simp [mkHeader, HEADER_SIZE]) hdet]
    rw [show mkHeader t n ++ p = mkHeader t n ++ (p ++ []) by simp]
    rw [framedLoop_frame c t n p [] ht hn hm hp, framedLoop_nil]
    rw [demuxRun_nil]
    simp
  refine ⟨?_, ?_, ?_, ?_, ?_⟩
  · rw [hout]
    simp
  · rw [hout]
    simp only [List.map_map]
    rw [show (DChunk.data ∘ fun d =>
      DChunk.mk (if t = 1 then Channel.stdout else Channel.stderr) d) = id by rfl]
    simp [slicePayload_ascii_join c p hc hascii]
  · rw [hout]
    intro ch hch
    simp only [List.mem_map] at hch
    obtain ⟨d, hd, rfl⟩ := hch
    exact slicePayload_ascii_sizes c p hc hascii d hd
  · rw [hout]
    simpa using slicePayload_ascii_two c p hc hascii hlt
  · rw [hout]

/-- Witness for the ASCII chunking round-trip at a concrete input: a
7-byte stdout frame demultiplexed with `chunkSize = 3`. -/
theorem demux_framed_chunking_roundtrip_ascii_witness :
    ((demuxStream 3 [mkHeader 1 7 ++ [104, 101, 108, 108, 111, 33, 10]]).1.map
      DChunk.data).flatten = [104, 101, 108, 108, 111, 33, 10] ∧
    2 ≤ (demuxStream 3 [mkHeader 1 7 ++ [104, 101, 108, 108, 111, 33, 10]]).1.length := by
  have h := demux_framed_chunking_roundtrip_ascii 3 1 7 [104, 101, 108, 108, 111, 33, 10]
    (Or.inl rfl) (by omega) (by simp) (by simp) (by norm_num [MAX_FRAME_SIZE]) (by simp)
  exact ⟨h.2.1, h.2.2.2.1⟩

/-- Counterexample to C4 as stated: a 2-byte UTF-8 payload (`é`, bytes
`C3 A9`) in a stdout frame, demultiplexed with `chunkSize = 1`.  The source
advances the slicing offset by the decoded string's length, and each 1-byte
slice decodes to the replacement character U+FFFD, so the concatenation of
the yielded data is two replacement characters — not the payload's text
`[233]`, nor its bytes `[195, 169]`. -/
theorem demux_framed_chunking_roundtrip_cex :
    ((demuxStream 1 [[1, 0, 0, 0, 0, 0, 0, 2, 195, 169]]).1.map DChunk.data) =
      [[65533], [65533]] ∧
    decodeUtf8 [195, 169] = [233] ∧
    ((demuxStream 1 [[1, 0, 0, 0, 0, 0, 0, 2, 195, 169]]).1.map DChunk.data).flatten ≠
      decodeUtf8 [195, 169] ∧
    ((demuxStream 1 [[1, 0, 0, 0, 0, 0, 0, 2, 195, 169]]).1.map DChunk.data).flatten ≠
      [195, 169] := by
  refine ⟨?_, ?_, ?_, ?_⟩ <;>
    simp [demuxStream, demuxRun.eq_def, demuxStep, detectMultiplexed, framedLoop.eq_def,
      slicePayload.eq_def, scanHeader.eq_def, unframedSlices.eq_def, decodeUtf8.eq_def,
      utf8DecodeOne.eq_def, isCont, isValidHeader.eq_def, readU32.eq_def, HEADER_SIZE,
      MAX_FRAME_SIZE, MAX_BUFFER_SIZE]

/-- Counterexample to C3 as stated: a valid stdout frame (payload `A`)
arrives, then an arrival of three garbage bytes `FF FF FF` followed by a
valid *stderr* frame (payload `B`).  The recovery scan finds the valid
header and silently drops the garbage — no stdout chunk carrying the
skipped span (which would decode to three U+FFFD characters) is ever
emitted — and, because the `continue` after recovery leaves `processed`
false, the frame after the corruption is not parsed either: its bytes are
flushed at end of stream as a final *stdout* text chunk, so no chunk at all
appears on stderr. -/
theorem demux_corruption_recovery_cex :
    (demuxStream 1024 [[1, 0, 0, 0, 0, 0, 0, 1, 65],
        [255, 255, 255, 2, 0, 0, 0, 0, 0, 0, 1, 66]]).1 =
      [⟨Channel.stdout, [65]⟩, ⟨Channel.stdout, [2, 0, 0, 0, 0, 0, 0, 1, 66]⟩] ∧
    decodeUtf8 [255, 255, 255] = [65533, 65533, 65533] ∧
    (∀ ch ∈ (demuxStream 1024 [[1, 0, 0, 0, 0, 0, 0, 1, 65],
        [255, 255, 255, 2, 0, 0, 0, 0, 0, 0, 1, 66]]).1,
      ch.data ≠ [65533, 65533, 65533]) ∧
    (∀ ch ∈ (demuxStream 1024 [[1, 0, 0, 0, 0, 0, 0, 1, 65],
        [255, 255, 255, 2, 0, 0, 0, 0, 0, 0, 1, 66]]).1,
      ch.channel ≠ Channel.stderr) := by
  refine ⟨?_, ?_, ?_, ?_⟩ <;>
    simp [demuxStream, demuxRun.eq_def, demuxStep, detectMultiplexed, framedLoop.eq_def,
      slicePayload.eq_def, scanHeader.eq_def, unframedSlices.eq_def, decodeUtf8.eq_def,
      utf8DecodeOne.eq_def, isCont, isValidHeader.eq_def, readU32.eq_def, HEADER_SIZE,
      MAX_FRAME_SIZE, MAX_BUFFER_SIZE]

/-- C3 (amended): when a header fails validation mid-stream, `demuxStream`
scans forward for the next valid header (positions `1 ≤ i < len − 8`) and
*discards* the skipped span — it is not emitted.  Framed parsing resumes
only on the next arrival of data, at which point a valid frame following
the corruption is yielded on its correct channel; a frame whose bytes are
still buffered when the stream ends is flushed as stdout text instead.  If
no valid header is found in the scanned range, the remaining buffer is
emitted verbatim as one stdout chunk. -/
theorem demux_corruption_recovery_amended (c t1 t2 t3 n1 n2 n3 : Nat)
    (p1 p2 p3 : List Nat)
    (ht1 : t1 = 1 ∨ t1 = 2) (ht2 : t2 = 1 ∨ t2 = 2) (ht3 : t3 = 1 ∨ t3 = 2)
    (hn1 : 0 < n1) (hn2 : 0 < n2) (hn3 : 0 < n3)
    (hm1 : n1 ≤ MAX_FRAME_SIZE) (hm2 : n2 ≤ MAX_FRAME_SIZE) (hm3 : n3 ≤ MAX_FRAME_SIZE)
    (hp1 : p1.length = n1) (hp2 : p2.length = n2) (hp3 : p3.length = n3) :
    scanHeader (255 :: 255 :: 255 :: (mkHeader t2 n2 ++ p2)) 1 = some 3 ∧
    (demuxStream c [mkHeader t1 n1 ++ p1,
        255 :: 255 :: 255 :: (mkHeader t2 n2 ++ p2),
        mkHeader t3 n3 ++ p3]).1 =
      (slicePayload c p1 0).map
          (fun d => DChunk.mk (if t1 = 1 then Channel.stdout else Channel.stderr) d) ++
        ((slicePayload c p2 0).map
          (fun d => DChunk.mk (if t2 = 1 then Channel.stdout else Channel.stderr) d) ++
         (slicePayload c p3 0).map
          (fun d => DChunk.mk (if t3 = 1 then Channel.stdout else Channel.stderr) d)) ∧
    (∀ buf : List Nat, HEADER_SIZE ≤ buf.length →
      isValidHeader (buf.take HEADER_SIZE) = false →
      scanHeader buf 1 = none →
      framedLoop c buf = ([⟨Channel.stdout, decodeUtf8 buf⟩], [])) ∧
    (demuxStream c [mkHeader t1 n1 ++ p1,
        [255, 255, 255, 255, 255, 255, 255, 255, 255]]).1 =
      (slicePayload c p1 0).map
          (fun d => DChunk.mk (if t1 = 1 then Channel.stdout else Channel.stderr) d) ++
        [⟨Channel.stdout, [65533, 65533, 65533, 65533, 65533, 65533, 65533, 65533, 65533]⟩] := by
  have e1 : demuxStep c ⟨[], none⟩ (mkHeader t1 n1 ++ p1) =
      ((slicePayload c p1 0).map
        (fun d => DChunk.mk (if t1 = 1 then Channel.stdout else Channel.stderr) d),
       ⟨[], some true⟩) := by
    rw [demuxStep_first_true c _ (by simp [mkHeader, HEADER_SIZE])
      (detectMultiplexed_single_frame t1 n1 p1 ht1 hn1 hm1 hp1)]
    rw [show mkHeader t1 n1 ++ p1 = mkHeader t1 n1 ++ (p1 ++ []) by simp]
    rw [framedLoop_frame c t1 n1 p1 [] ht1 hn1 hm1 hp1, framedLoop_nil]
    simp
  have e2 : demuxStep c ⟨[], some true⟩ (255 :: 255 :: 255 :: (mkHeader t2 n2 ++ p2)) =
      ([], ⟨mkHeader t2 n2 ++ p2, some true⟩) := by
    rw [demuxStep_framed]
    simp only [List.nil_append]
    rw [framedLoop_garbage c t2 n2 p2 ht2 hn2 hm2 hp2]
  have e3 : demuxStep c ⟨mkHeader t2 n2 ++ p2, some true⟩ (mkHeader t3 n3 ++ p3) =
      ((slicePayload c p2 0).map
          (fun d => DChunk.mk (if t2 = 1 then Channel.stdout else Channel.stderr) d) ++
        (slicePayload c p3 0).map
          (fun d => DChunk.mk (if t3 = 1 then Channel.stdout else Channel.stderr) d),
       ⟨[], some true⟩) := by
    rw [demuxStep_framed]
    rw [show (mkHeader t2 n2 ++ p2) ++ (mkHeader t3 n3 ++ p3) =
      mkHeader t2 n2 ++ (p2 ++ (mkHeader t3 n3 ++ p3)) by simp]
    rw [framedLoop_frame c t2 n2 p2 (mkHeader t3 n3 ++ p3) ht2 hn2 hm2 hp2]
    rw [show mkHeader t3 n3 ++ p3 = mkHeader t3 n3 ++ (p3 ++ []) by simp]
    rw [framedLoop_frame c t3 n3 p3 [] ht3 hn3 hm3 hp3, framedLoop_nil]
    simp
  have hnone : ∀ buf : List Nat, HEADER_SIZE ≤ buf.length →
      isValidHeader (buf.take HEADER_SIZE) = false →
      scanHeader buf 1 = none →
      framedLoop c buf = ([⟨Channel.stdout, decodeUtf8 buf⟩], []) := by
    intro buf h8 hinv hscan
    rw [framedLoop.eq_def, if_pos h8, hinv, hscan]
    simp
  have hdec9 : decodeUtf8 [255, 255, 255, 255, 255, 255, 255, 255, 255] =
      [65533, 65533, 65533, 65533, 65533, 65533, 65533, 65533, 65533] := by
    simp [decodeUtf8.eq_def, utf8DecodeOne.eq_def, isCont]
  have e4 : demuxStep c ⟨[], some true⟩ [255, 255, 255, 255, 255, 255, 255, 255, 255] =
      ([⟨Channel.stdout, [65533, 65533, 65533, 65533, 65533, 65533, 65533, 65533, 65533]⟩],
       ⟨[], some true⟩) := by
    rw [demuxStep_framed]
    simp only [List.nil_append]
    rw [hnone [255, 255, 255, 255, 255, 255, 255, 255, 255]
      (by simp [HEADER_SIZE])
      (by decide)
      (by rw [scanHeader.eq_def]; norm_num [HEADER_SIZE]), hdec9]
  refine ⟨scanHeader_garbage t2 n2 p2 ht2 hn2 hm2 hp2, ?_, hnone, ?_⟩
  · rw [demuxStream, demuxRun_cons c _ _ _ (by simp [MAX_BUFFER_SIZE]), e1]
    rw [demuxRun_cons c _ _ _ (by simp [MAX_BUFFER_SIZE]), e2]
    rw [demuxRun_cons c _ _ _ (by
      have hb : p2.length ≤ 10485760 := by rw [hp2]; simpa [MAX_FRAME_SIZE] using hm2
      simp [mkHeader, MAX_BUFFER_SIZE]
      omega), e3]
    rw [demuxRun_nil]
    simp
  · rw [demuxStream, demuxRun_cons c _ _ _ (by simp [MAX_BUFFER_SIZE]), e1]
    rw [demuxRun_cons c _ _ _ (by simp [MAX_BUFFER_SIZE]), e4]
    rw [demuxRun_nil]
    simp

/-- Witness for the amended corruption-recovery behaviour at concrete
frames: stdout `A`, corruption, stderr `B`, stdout `C`; and the
no-valid-header case, where an unrecoverable garbage arrival is emitted as
one stdout chunk of replacement characters. -/
theorem demux_corruption_recovery_amended_witness :
    (demuxStream 16 [mkHeader 1 1 ++ [65],
        255 :: 255 :: 255 :: (mkHeader 2 1 ++ [66]),
        mkHeader 1 1 ++ [67]]).1 =
      (slicePayload 16 [65] 0).map (fun d => DChunk.mk Channel.stdout d) ++
        ((slicePayload 16 [66] 0).map (fun d => DChunk.mk Channel.stderr d) ++
         (slicePayload 16 [67] 0).map (fun d => DChunk.mk Channel.stdout d)) ∧
    (demuxStream 16 [mkHeader 1 1 ++ [65],
        [255, 255, 255, 255, 255, 255, 255, 255, 255]]).1 =
      (slicePayload 16 [65] 0).map (fun d => DChunk.mk Channel.stdout d) ++
        [⟨Channel.stdout, [65533, 65533, 65533, 65533, 65533, 65533, 65533, 65533, 65533]⟩] := by
  have h := demux_corruption_recovery_amended 16 1 2 1 1 1 1 [65] [66] [67]
    (Or.inl rfl) (Or.inr rfl) (Or.inl rfl) (by omega) (by omega) (by omega)
    (by norm_num [MAX_FRAME_SIZE]) (by norm_num [MAX_FRAME_SIZE]) (by norm_num [MAX_FRAME_SIZE])
    (by simp) (by simp) (by simp)
  exact ⟨by simpa using h.2.1, by simpa using h.2.2.2⟩

/-! ## CircularBuffer (src/utils/CircularBuffer.ts)

Items are JS strings (UTF-16 code-unit lists); `totalBytes` tracks
`Buffer.byteLength(item, 'utf8')` for the retained items.  `String.slice`
slices by code units; `Buffer.byteLength` counts UTF-8 bytes — the length
mismatch for non-ASCII content is inherited from the source. -/

/-- The code units of the string literal `"\n[TRUNCATED]\n"`. -/
def truncatedMarker : List Nat := [10, 91, 84, 82, 85, 78, 67, 65, 84, 69, 68, 93, 10]

structure CBuf where
  buffer : List (List Nat)
  totalBytes : Nat
deriving DecidableEq, Repr

def CBuf.empty : CBuf := ⟨[], 0⟩

/-- The `while` eviction loop of `CircularBuffer.push`: shift the oldest item
while the item or byte limit is exceeded and more than one item remains. -/
def evict (maxItems maxBytes : Nat) : List (List Nat) → Nat → List (List Nat) × Nat
  | [], total => ([], total)
  | x :: rest, total =>
    if (maxItems < (x :: rest).length ∨ maxBytes < total) ∧ 1 < (x :: rest).length then
      evict maxItems maxBytes rest (total - utf8Len x)
    else (x :: rest, total)

/-- `CircularBuffer.push`: an item whose UTF-8 byte length exceeds `maxBytes`
replaces the whole buffer with its truncation (`slice(0, maxBytes / 2)` code
units plus the `[TRUNCATED]` marker); otherwise the item is appended and old
items are evicted from the front. -/
def CBuf.push (maxItems maxBytes : Nat) (st : CBuf) (item : List Nat) : CBuf :=
  if maxBytes < utf8Len item then
    ⟨[item.take (maxBytes / 2) ++ truncatedMarker],
      utf8Len (item.take (maxBytes / 2) ++ truncatedMarker)⟩
  else
    ⟨(evict maxItems maxBytes (st.buffer ++ [item]) (st.totalBytes + utf8Len item)).1,
      (evict maxItems maxBytes (st.buffer ++ [item]) (st.totalBytes + utf8Len item)).2⟩

def CBuf.getContents (st : CBuf) : List Nat := st.buffer.flatten

def CBuf.pushAll (maxItems maxBytes : Nat) (st : CBuf) (items : List (List Nat)) : CBuf :=
  items.foldl (CBuf.push maxItems maxBytes) st

lemma evict_sum (mi mb : Nat) : ∀ (buf : List (List Nat)) (total : Nat),
    total = (buf.map utf8Len).sum →
    (evict mi mb buf total).2 = ((evict mi mb buf total).1.map utf8Len).sum := by
  intro buf
  induction buf with
  | nil => intro total h; simpa [evict] using h
  | cons x rest ih =>
    intro total h
    rw [evict]
    by_cases hc : (mi < (x :: rest).length ∨ mb < total) ∧ 1 < (x :: rest).length
    · rw [if_pos hc]
      exact ih (total - utf8Len x) (by simp at h; omega)
    · rw [if_neg hc]
      exact h

lemma evict_post (mi mb : Nat) : ∀ (buf : List (List Nat)) (total : Nat),
    ((evict mi mb buf total).1.length ≤ mi ∧ (evict mi mb buf total).2 ≤ mb) ∨
      (evict mi mb buf total).1.length ≤ 1 := by
  intro buf
  induction buf with
  | nil => intro total; simp [evict]
  | cons x rest ih =>
    intro total
    rw [evict]
    by_cases hc : (mi < (x :: rest).length ∨ mb < total) ∧ 1 < (x :: rest).length
    · rw [if_pos hc]
      exact ih (total - utf8Len x)
    · rw [if_neg hc]
      dsimp only
      by_cases h1 : (x :: rest).length ≤ 1
      · exact Or.inr h1
      · refine Or.inl ⟨?_, ?_⟩
        · by_contra hmi
          exact hc ⟨Or.inl (by omega), by omega⟩
        · by_contra hmb
          exact hc ⟨Or.inr (by omega), by omega⟩

lemma evict_getLast (mi mb : Nat) : ∀ (buf : List (List Nat)) (total : Nat), buf ≠ [] →
    (evict mi mb buf total).1 ≠ [] ∧
      (evict mi mb buf total).1.getLast? = buf.getLast? := by
  intro buf
  induction buf with
  | nil => intro total h; exact absurd rfl h
  | cons x rest ih =>
    intro total _
    rw [evict]
    by_cases hc : (mi < (x :: rest).length ∨ mb < total) ∧ 1 < (x :: rest).length
    · rw [if_pos hc]
      have hrest : rest ≠ [] := by
        rcases hc with ⟨_, h1⟩
        cases rest with
        | nil => simp at h1
        | cons a b => simp
      have := ih (total - utf8Len x) hrest
      refine ⟨this.1, ?_⟩
      rw [this.2]
      cases rest with
      | nil => exact absurd rfl hrest
      | cons a b => simp
    · rw [if_neg hc]
      exact ⟨by simp, rfl⟩

lemma truncatedMarker_ascii : ∀ u ∈ truncatedMarker, u < 128 := by decide

lemma list_len_one_getLast {α : Type} (l : List α) (a : α) (h1 : l.length ≤ 1)
    (h2 : l.getLast? = some a) : l = [a] := by
  cases l with
  | nil => simp at h2
  | cons x rest =>
    cases rest with
    | nil => simp at h2; simp [h2]
    | cons y t => simp at h1

lemma push_fits_getLast (mi mb : Nat) (st : CBuf) (item : List Nat)
    (h : utf8Len item ≤ mb) :
    (CBuf.push mi mb st item).buffer.getLast? = some item ∧
    (CBuf.push mi mb st item).buffer ≠ [] := by
  rw [CBuf.push, if_neg (by omega)]
  dsimp only
  have hg := evict_getLast mi mb (st.buffer ++ [item]) (st.totalBytes + utf8Len item) (by simp)
  refine ⟨?_, hg.1⟩
  rw [hg.2]
  simp

lemma push_inv (mi mb : Nat) (hmi : 1 ≤ mi) (hmb : 25 ≤ mb) (st : CBuf) (item : List Nat)
    (hascii : ∀ u ∈ item, u < 128)
    (hsum : st.totalBytes = (st.buffer.map utf8Len).sum)
    (_hlen : st.buffer.length ≤ mi) (_hbytes : st.totalBytes ≤ mb) :
    (CBuf.push mi mb st item).totalBytes =
        (((CBuf.push mi mb st item).buffer).map utf8Len).sum ∧
    (CBuf.push mi mb st item).buffer.length ≤ mi ∧
    (CBuf.push mi mb st item).totalBytes ≤ mb := by
  rw [CBuf.push]
  by_cases hover : mb < utf8Len item
  · rw [if_pos hover]
    dsimp only
    have hta : ∀ u ∈ item.take (mb / 2) ++ truncatedMarker, u < 128 := by
      intro u hu
      rcases List.mem_append.mp hu with h | h
      · exact hascii u (List.take_subset _ _ h)
      · exact truncatedMarker_ascii u h
    have hlen' : utf8Len (item.take (mb / 2) ++ truncatedMarker) =
        (item.take (mb / 2)).length + 13 := by
      rw [utf8Len_ascii _ hta]
      simp [truncatedMarker]
    refine ⟨by simp, by simp; omega, ?_⟩
    rw [hlen']
    have : (item.take (mb / 2)).length ≤ mb / 2 := by simp [List.length_take]
    omega
  · rw [if_neg hover]
    dsimp only
    have hsum' : st.totalBytes + utf8Len item = ((st.buffer ++ [item]).map utf8Len).sum := by
      simp [hsum]
    have hs := evict_sum mi mb (st.buffer ++ [item]) (st.totalBytes + utf8Len item) hsum'
    refine ⟨hs, ?_, ?_⟩
    · rcases evict_post mi mb (st.buffer ++ [item]) (st.totalBytes + utf8Len item) with h | h
      · exact h.1
      · omega
    · rcases evict_post mi mb (st.buffer ++ [item]) (st.totalBytes + utf8Len item) with h | h
      · exact h.2
      · -- at most one retained item: it is the appended item, whose bytes fit
        have hg := evict_getLast mi mb (st.buffer ++ [item]) (st.totalBytes + utf8Len item)
          (by simp)
        have hone : (evict mi mb (st.buffer ++ [item]) (st.totalBytes + utf8Len item)).1 =
            [item] := by
          refine list_len_one_getLast _ item h ?_
          rw [hg.2]; simp
        rw [hs, hone]
        simpa using Nat.le_of_not_lt hover

lemma pushAll_inv (mi mb : Nat) (hmi : 1 ≤ mi) (hmb : 25 ≤ mb) :
    ∀ (items : List (List Nat)) (st : CBuf),
    (∀ it ∈ items, ∀ u ∈ it, u < 128) →
    st.totalBytes = (st.buffer.map utf8Len).sum → st.buffer.length ≤ mi →
    st.totalBytes ≤ mb →
    (CBuf.pushAll mi mb st items).totalBytes =
        (((CBuf.pushAll mi mb st items).buffer).map utf8Len).sum ∧
    (CBuf.pushAll mi mb st items).buffer.length ≤ mi ∧
    (CBuf.pushAll mi mb st items).totalBytes ≤ mb := by
  intro items
  induction items with
  | nil => intro st _ h1 h2 h3; exact ⟨h1, h2, h3⟩
  | cons it rest ih =>
    intro st hascii h1 h2 h3
    have hp := push_inv mi mb hmi hmb st it (hascii it (by simp)) h1 h2 h3
    exact ih (CBuf.push mi mb st it) (fun x hx u hu => hascii x (by simp [hx]) u hu)
      hp.1 hp.2.1 hp.2.2

/-- C7 (amended): with `maxItems ≥ 1`, `maxBytes ≥ 25` and single-byte
(ASCII) content, a `CircularBuffer` holds at most `maxItems` items and at
most `maxBytes` bytes after any sequence of pushes, `totalBytes` always
equals the byte size of the retained items, a push whose item fits in
`maxBytes` leaves that item as the most recent retained one, and an
oversize push leaves a single-item buffer holding the item's truncation,
of size `⌊maxBytes/2⌋ + 13 ≤ maxBytes` bytes.  (For `maxBytes < 25` the
truncation itself exceeds `maxBytes` — see the counterexample — and for
non-ASCII items `slice` counts code units while `byteLength` counts UTF-8
bytes, so the byte caps require the single-byte hypothesis.) -/
theorem circularBuffer_push_bounds_amended (mi mb : Nat) (items : List (List Nat))
    (hmi : 1 ≤ mi) (hmb : 25 ≤ mb) (hascii : ∀ it ∈ items, ∀ u ∈ it, u < 128) :
    (CBuf.pushAll mi mb CBuf.empty items).buffer.length ≤ mi ∧
    (CBuf.pushAll mi mb CBuf.empty items).totalBytes ≤ mb ∧
    (CBuf.pushAll mi mb CBuf.empty items).totalBytes =
      (((CBuf.pushAll mi mb CBuf.empty items).buffer).map utf8Len).sum ∧
    (∀ (st : CBuf) (item : List Nat), utf8Len item ≤ mb →
      (CBuf.push mi mb st item).buffer.getLast? = some item) ∧
    (∀ (st : CBuf) (item : List Nat), mb < utf8Len item → (∀ u ∈ item, u < 128) →
      (CBuf.push mi mb st item).buffer = [item.take (mb / 2) ++ truncatedMarker] ∧
      (CBuf.push mi mb st item).totalBytes ≤ mb) := by
  have hall := pushAll_inv mi mb hmi hmb items CBuf.empty hascii (by simp [CBuf.empty])
    (by simp [CBuf.empty]) (by simp [CBuf.empty])
  refine ⟨hall.2.1, hall.2.2, hall.1, ?_, ?_⟩
  · intro st item h
    exact (push_fits_getLast mi mb st item h).1
  · intro st item hover ha
    rw [CBuf.push, if_pos hover]
    have hta : ∀ u ∈ item.take (mb / 2) ++ truncatedMarker, u < 128 := by
      intro u hu
      rcases List.mem_append.mp hu with h | h
      · exact ha u (List.take_subset _ _ h)
      · exact truncatedMarker_ascii u h
    refine ⟨rfl, ?_⟩
    dsimp only
    rw [utf8Len_ascii _ hta]
    have h1 : (item.take (mb / 2)).length ≤ mb / 2 := by simp [List.length_take]
    simp [truncatedMarker]
    omega

/-- Witness for the amended CircularBuffer bounds: ten pushes of 30-byte
items into a `CircularBuffer(maxItems = 5, maxBytes = 100)`. -/
theorem circularBuffer_push_bounds_amended_witness :
    (CBuf.pushAll 5 100 CBuf.empty (List.replicate 10 (List.replicate 30 97))).buffer.length ≤ 5 ∧
    (CBuf.pushAll 5 100 CBuf.empty (List.replicate 10 (List.replicate 30 97))).totalBytes ≤ 100 := by
  have h := circularBuffer_push_bounds_amended 5 100 (List.replicate 10 (List.replicate 30 97))
    (by omega) (by omega) (by
      intro it hit u hu
      rw [List.eq_of_mem_replicate hit] at hu
      rw [List.eq_of_mem_replicate hu]
      omega)
  exact ⟨h.1, h.2.1⟩

/-- Counterexample to C7 as stated: for `CircularBuffer(maxItems = 5,
maxBytes = 24)`, pushing a single 25-byte ASCII item takes the oversize
path and retains `item.slice(0, 12) + "\n[TRUNCATED]\n"` — 25 bytes, which
exceeds `maxBytes`: the truncated single item (and hence the buffer's byte
total) is *not* bounded by `maxBytes` when `maxBytes < 25`. -/
theorem circularBuffer_push_cex :
    (CBuf.push 5 24 CBuf.empty (List.replicate 25 97)).buffer.length = 1 ∧
    (CBuf.push 5 24 CBuf.empty (List.replicate 25 97)).totalBytes = 25 ∧
    utf8Len (CBuf.push 5 24 CBuf.empty (List.replicate 25 97)).getContents = 25 ∧
    ¬ ((CBuf.push 5 24 CBuf.empty (List.replicate 25 97)).totalBytes ≤ 24) := by
  refine ⟨?_, ?_, ?_, ?_⟩ <;>
    simp [CBuf.push, CBuf.empty, CBuf.getContents, evict, truncatedMarker,
      List.replicate, utf8Len.eq_def]

/-! ## ExecSession buffered mode (src/docker/ExecSession.ts, handleBuffered)

The buffered read loop consumes the demultiplexer's chunk sequence, pushing
each chunk into the stdout/stderr `CircularBuffer`s (created with
`maxItems = 10000` and `maxBytes = config.maxBytes` in buffered mode) and
accumulating `outputBytes` by the chunk's string length; once the
accumulated count exceeds `config.maxBytes` a truncation marker is pushed
into both buffers and the loop breaks.  Exit-code retrieval and timestamps
(external calls) are not modelled. -/

def strUnits (s : String) : List Nat := s.data.map Char.toNat

/-- Decimal digits of `n` as code units (the `${...}` interpolation). -/
def natDigits (n : Nat) : List Nat :=
  if n < 10 then [48 + n]
  else natDigits (n / 10) ++ [48 + n % 10]
termination_by n
decreasing_by exact Nat.div_lt_self (by omega) (by omega)

lemma natDigits_ascii : ∀ (n : Nat), ∀ d ∈ natDigits n, d < 128 := by
  intro n
  induction n using Nat.strong_induction_on with
  | _ n ih =>
    intro d hd
    rw [natDigits.eq_def] at hd
    by_cases h : n < 10
    · rw [if_pos h] at hd
      simp at hd
      omega
    · rw [if_neg h] at hd
      rcases List.mem_append.mp hd with h1 | h1
      · exact ih (n / 10) (Nat.div_lt_self (by omega) (by omega)) d h1
      · simp at h1
        omega

def stdoutTruncMarker (mb : Nat) : List Nat :=
  strUnits "\n[stdout truncated at " ++ natDigits mb ++ strUnits " bytes]"

def stderrTruncMarker (mb : Nat) : List Nat :=
  strUnits "\n[stderr truncated at " ++ natDigits mb ++ strUnits " bytes]"

/-- The `for await` loop of `ExecSession.handleBuffered` over the demuxed
chunks: returns the stdout buffer, the stderr buffer and `outputBytes`. -/
def handleBufferedLoop (mb : Nat) : List DChunk → CBuf → CBuf → Nat → CBuf × CBuf × Nat
  | [], so, se, bytes => (so, se, bytes)
  | ch :: rest, so, se, bytes =>
    if mb < bytes + ch.data.length then
      (CBuf.push 10000 mb
          (if ch.channel = Channel.stdout then CBuf.push 10000 mb so ch.data else so)
          (stdoutTruncMarker mb),
        CBuf.push 10000 mb
          (if ch.channel = Channel.stdout then se else CBuf.push 10000 mb se ch.data)
          (stderrTruncMarker mb),
        bytes + ch.data.length)
    else
      handleBufferedLoop mb rest
        (if ch.channel = Channel.stdout then CBuf.push 10000 mb so ch.data else so)
        (if ch.channel = Channel.stdout then se else CBuf.push 10000 mb se ch.data)
        (bytes + ch.data.length)

structure ExecBufferedResult where
  stdout : List Nat
  stderr : List Nat
  outputBytes : Nat
  truncated : Bool
deriving DecidableEq, Repr

/-- `ExecSession.handleBuffered` (result fields of the returned JSON body):
`outputBytes` is reported exactly as accumulated — it is *not* clamped to
`config.maxBytes` — and `truncated` is `outputBytes > config.maxBytes`. -/
def handleBuffered (mb : Nat) (chunks : List DChunk) : ExecBufferedResult :=
  ⟨(handleBufferedLoop mb chunks CBuf.empty CBuf.empty 0).1.getContents,
    (handleBufferedLoop mb chunks CBuf.empty CBuf.empty 0).2.1.getContents,
    (handleBufferedLoop mb chunks CBuf.empty CBuf.empty 0).2.2,
    decide (mb < (handleBufferedLoop mb chunks CBuf.empty CBuf.empty 0).2.2)⟩

lemma flatten_suffix_of_getLast (l : List (List Nat)) (m : List Nat)
    (h : l.getLast? = some m) : m <:+ l.flatten := by
  obtain ⟨l', rfl⟩ := List.getLast?_eq_some_iff.mp h
  rw [List.flatten_append]
  exact (by simp : m <:+ [m].flatten).trans (List.suffix_append l'.flatten [m].flatten)

lemma handleBufferedLoop_stop (mb : Nat) (ch : DChunk) (rest : List DChunk) :
    ∀ (pre : List DChunk) (so se : CBuf) (bytes : Nat),
    bytes + (pre.map (fun c => c.data.length)).sum ≤ mb →
    mb < bytes + (pre.map (fun c => c.data.length)).sum + ch.data.length →
    handleBufferedLoop mb (pre ++ ch :: rest) so se bytes =
      handleBufferedLoop mb (pre ++ [ch]) so se bytes := by
  intro pre
  induction pre with
  | nil =>
    intro so se bytes h1 h2
    simp only [List.nil_append]
    rw [handleBufferedLoop.eq_2, handleBufferedLoop.eq_2]
    have hc : mb < bytes + ch.data.length := by simp at h2; omega
    rw [if_pos hc, if_pos hc]
  | cons c pre' ih =>
    intro so se bytes h1 h2
    simp only [List.cons_append]
    rw [handleBufferedLoop.eq_2, handleBufferedLoop.eq_2]
    have hc : ¬ mb < bytes + c.data.length := by simp at h1; omega
    rw [if_neg hc, if_neg hc]
    exact ih _ _ _ (by simp at h1 ⊢; omega) (by simp at h2 ⊢; omega)

lemma handleBufferedLoop_exceed (mb : Nat) (ch : DChunk)
    (hm1 : utf8Len (stdoutTruncMarker mb) ≤ mb)
    (hm2 : utf8Len (stderrTruncMarker mb) ≤ mb) :
    ∀ (pre : List DChunk) (so se : CBuf) (bytes : Nat),
    bytes + (pre.map (fun c => c.data.length)).sum ≤ mb →
    mb < bytes + (pre.map (fun c => c.data.length)).sum + ch.data.length →
    (handleBufferedLoop mb (pre ++ [ch]) so se bytes).2.2 =
        bytes + (pre.map (fun c => c.data.length)).sum + ch.data.length ∧
    (handleBufferedLoop mb (pre ++ [ch]) so se bytes).1.buffer.getLast? =
        some (stdoutTruncMarker mb) ∧
    (handleBufferedLoop mb (pre ++ [ch]) so se bytes).2.1.buffer.getLast? =
        some (stderrTruncMarker mb) := by
  intro pre
  induction pre with
  | nil =>
    intro so se bytes h1 h2
    simp only [List.nil_append]
    rw [handleBufferedLoop.eq_2]
    have hc : mb < bytes + ch.data.length := by simp at h2; omega
    rw [if_pos hc]
    refine ⟨by simp, ?_, ?_⟩
    · exact (push_fits_getLast 10000 mb _ _ hm1).1
    · exact (push_fits_getLast 10000 mb _ _ hm2).1
  | cons c pre' ih =>
    intro so se bytes h1 h2
    simp only [List.cons_append]
    rw [handleBufferedLoop.eq_2]
    have hc : ¬ mb < bytes + c.data.length := by simp at h1; omega
    rw [if_neg hc]
    have := ih (if c.channel = Channel.stdout then CBuf.push 10000 mb so c.data else so)
      (if c.channel = Channel.stdout then se else CBuf.push 10000 mb se c.data)
      (bytes + c.data.length)
      (by simp at h1 ⊢; omega) (by simp at h2 ⊢; omega)
    refine ⟨?_, this.2.1, this.2.2⟩
    rw [this.1]
    simp
    omega

/-- C5 (amended): in buffered exec mode, at the first chunk that drives the
accumulated output count past `config.maxBytes`, the loop pushes a
truncation marker into *both* the stdout and stderr buffers (each marker
ends the corresponding returned content), stops without consuming any
later chunk, and the result reports `truncated = true` — but `outputBytes`
is reported exactly as accumulated, *exceeding* the configured ceiling
rather than being clamped to it. -/
theorem execSession_buffered_truncation_amended (mb : Nat) (pre : List DChunk)
    (ch : DChunk) (rest : List DChunk)
    (hpre : (pre.map (fun c => c.data.length)).sum ≤ mb)
    (hex : mb < (pre.map (fun c => c.data.length)).sum + ch.data.length)
    (hm1 : utf8Len (stdoutTruncMarker mb) ≤ mb)
    (hm2 : utf8Len (stderrTruncMarker mb) ≤ mb) :
    (handleBuffered mb (pre ++ ch :: rest)).outputBytes =
        (pre.map (fun c => c.data.length)).sum + ch.data.length ∧
    mb < (handleBuffered mb (pre ++ ch :: rest)).outputBytes ∧
    (handleBuffered mb (pre ++ ch :: rest)).truncated = true ∧
    handleBuffered mb (pre ++ ch :: rest) = handleBuffered mb (pre ++ [ch]) ∧
    stdoutTruncMarker mb <:+ (handleBuffered mb (pre ++ ch :: rest)).stdout ∧
    stderrTruncMarker mb <:+ (handleBuffered mb (pre ++ ch :: rest)).stderr := by
  have hstop := handleBufferedLoop_stop mb ch rest pre CBuf.empty CBuf.empty 0
    (by simpa using hpre) (by simpa using hex)
  have hexc := handleBufferedLoop_exceed mb ch hm1 hm2 pre CBuf.empty CBuf.empty 0
    (by simpa using hpre) (by simpa using hex)
  have hbytes : (handleBufferedLoop mb (pre ++ ch :: rest) CBuf.empty CBuf.empty 0).2.2 =
      (pre.map (fun c => c.data.length)).sum + ch.data.length := by
    rw [hstop]
    simpa using hexc.1
  refine ⟨?_, ?_, ?_, ?_, ?_, ?_⟩
  · simpa [handleBuffered] using hbytes
  · simp only [handleBuffered]
    rw [hbytes]
    omega
  · simp only [handleBuffered]
    rw [hbytes]
    simp
    omega
  · simp only [handleBuffered, hstop]
  · simp only [handleBuffered, hstop, CBuf.getContents]
    exact flatten_suffix_of_getLast _ _ hexc.2.1
  · simp only [handleBuffered, hstop, CBuf.getContents]
    exact flatten_suffix_of_getLast _ _ hexc.2.2

lemma stdoutTruncMarker_ascii (mb : Nat) : ∀ u ∈ stdoutTruncMarker mb, u < 128 := by
  have h1 : ∀ u ∈ strUnits "\n[stdout truncated at ", u < 128 := by decide
  have h2 : ∀ u ∈ strUnits " bytes]", u < 128 := by decide
  intro u hu
  rcases List.mem_append.mp hu with h | h
  · rcases List.mem_append.mp h with h | h
    · exact h1 u h
    · exact natDigits_ascii mb u h
  · exact h2 u h

lemma stderrTruncMarker_ascii (mb : Nat) : ∀ u ∈ stderrTruncMarker mb, u < 128 := by
  have h1 : ∀ u ∈ strUnits "\n[stderr truncated at ", u < 128 := by decide
  have h2 : ∀ u ∈ strUnits " bytes]", u < 128 := by decide
  intro u hu
  rcases List.mem_append.mp hu with h | h
  · rcases List.mem_append.mp h with h | h
    · exact h1 u h
    · exact natDigits_ascii mb u h
  · exact h2 u h

/-- Witness for the amended buffered-truncation behaviour:
`maxBytes = 100`, one 60-byte stdout chunk, then a 60-byte stderr chunk
that crosses the ceiling, then an ignored third chunk. -/
theorem execSession_buffered_truncation_amended_witness :
    (handleBuffered 100 ([⟨Channel.stdout, List.replicate 60 97⟩] ++
        ⟨Channel.stderr, List.replicate 60 98⟩ :: [⟨Channel.stdout, [99]⟩])).outputBytes = 120 ∧
    (handleBuffered 100 ([⟨Channel.stdout, List.replicate 60 97⟩] ++
        ⟨Channel.stderr, List.replicate 60 98⟩ :: [⟨Channel.stdout, [99]⟩])).truncated = true := by
  have hlen1 : utf8Len (stdoutTruncMarker 100) ≤ 100 := by
    rw [utf8Len_ascii _ (stdoutTruncMarker_ascii 100)]
    simp [stdoutTruncMarker, strUnits, natDigits.eq_def]
  have hlen2 : utf8Len (stderrTruncMarker 100) ≤ 100 := by
    rw [utf8Len_ascii _ (stderrTruncMarker_ascii 100)]
    simp [stderrTruncMarker, strUnits, natDigits.eq_def]
  have h := execSession_buffered_truncation_amended 100
    [⟨Channel.stdout, List.replicate 60 97⟩] ⟨Channel.stderr, List.replicate 60 98⟩
    [⟨Channel.stdout, [99]⟩] (by simp) (by simp) hlen1 hlen2
  refine ⟨?_, h.2.2.1⟩
  rw [h.1]
  simp

/-- C5, behaviour of the code at the failing input: with
`config.maxBytes = 10` and a single 15-byte chunk, the buffered result
reports `truncated = true` but `outputBytes = 15`, exceeding the ceiling —
the source returns `outputBytes: this.outputBytes` without clamping it,
although the repository's own integration test
(`tests/integration/DockerManager.test.ts`, "should enforce output size
limit in buffered mode") expects `outputBytes ≤ config.maxBytes` and the
fixes document records "Capped `outputBytes` to `config.maxBytes` when
truncation occurs" as applied. -/
theorem execSession_buffered_outputBytes_unclamped :
    (handleBuffered 10 [⟨Channel.stdout, List.replicate 15 97⟩]).outputBytes = 15 ∧
    (handleBuffered 10 [⟨Channel.stdout, List.replicate 15 97⟩]).truncated = true ∧
    ¬ ((handleBuffered 10 [⟨Channel.stdout, List.replicate 15 97⟩]).outputBytes ≤ 10) := by
  refine ⟨?_, ?_, ?_⟩ <;>
    simp [handleBuffered, handleBufferedLoop.eq_1, handleBufferedLoop.eq_2]

/-! ## CircuitBreaker (src/resilience/CircuitBreaker.ts)

`execute` is modelled as a state transition taking the current time and the
outcome of the wrapped operation (the per-call `timeout` race only shapes
that outcome).  The returned `Bool` records whether the operation was
invoked; `false` corresponds to the thrown "Circuit breaker is OPEN" error,
which leaves the state untouched. -/

inductive CircuitState where
  | CLOSED
  | OPEN
  | HALF_OPEN
deriving DecidableEq, Repr

structure CircuitBreakerOptions where
  failureThreshold : Nat
  successThreshold : Nat
  resetTimeout : Nat

structure CBState where
  state : CircuitState
  failures : Nat
  successes : Nat
  nextAttempt : Nat
deriving DecidableEq, Repr

/-- `CircuitBreaker.onSuccess`: failures reset to zero; in `HALF_OPEN` the
success counter advances and closes the circuit at the threshold. -/
def onSuccess (opts : CircuitBreakerOptions) (s : CBState) : CBState :=
  match s.state with
  | .HALF_OPEN =>
    if opts.successThreshold ≤ s.successes + 1 then ⟨.CLOSED, 0, 0, s.nextAttempt⟩
    else ⟨.HALF_OPEN, 0, s.successes + 1, s.nextAttempt⟩
  | st => ⟨st, 0, s.successes, s.nextAttempt⟩

/-- `CircuitBreaker.onFailure`: failures advance and successes reset; a
`HALF_OPEN` failure reopens at once, a `CLOSED` one trips at the failure
threshold, both scheduling `nextAttempt = now + resetTimeout`. -/
def onFailure (opts : CircuitBreakerOptions) (now : Nat) (s : CBState) : CBState :=
  match s.state with
  | .HALF_OPEN => ⟨.OPEN, s.failures + 1, 0, now + opts.resetTimeout⟩
  | .CLOSED =>
    if opts.failureThreshold ≤ s.failures + 1 then
      ⟨.OPEN, s.failures + 1, 0, now + opts.resetTimeout⟩
    else ⟨.CLOSED, s.failures + 1, 0, s.nextAttempt⟩
  | .OPEN => ⟨.OPEN, s.failures + 1, 0, s.nextAttempt⟩

/-- The entry check of `CircuitBreaker.execute`: in `OPEN` before
`nextAttempt` the call is rejected (`none`, the thrown circuit-open error);
once `nextAttempt` has passed the breaker moves to `HALF_OPEN` and the
probe call proceeds. -/
def cbAdmit (s : CBState) (now : Nat) : Option CBState :=
  if s.state = CircuitState.OPEN then
    if now < s.nextAttempt then none
    else some ⟨.HALF_OPEN, s.failures, s.successes, s.nextAttempt⟩
  else some s

/-- `CircuitBreaker.execute`: admit, invoke (`ok` is the operation's
outcome), and update.  The `Bool` is `true` iff the operation was invoked. -/
def cbExecute (opts : CircuitBreakerOptions) (s : CBState) (now : Nat) (ok : Bool) :
    Bool × CBState :=
  match cbAdmit s now with
  | none => (false, s)
  | some s' => (true, if ok then onSuccess opts s' else onFailure opts now s')

/-- A sequence of failing calls at the given times. -/
def cbFailN (opts : CircuitBreakerOptions) (s : CBState) (nows : List Nat) : CBState :=
  nows.foldl (fun s t => (cbExecute opts s t false).2) s

lemma cbFailN_trips (opts : CircuitBreakerOptions) :
    ∀ (nows : List Nat) (s : CBState), s.state = CircuitState.CLOSED →
    s.failures + nows.length ≤ opts.failureThreshold →
    (s.failures + nows.length < opts.failureThreshold →
      (cbFailN opts s nows).state = CircuitState.CLOSED ∧
      (cbFailN opts s nows).failures = s.failures + nows.length) ∧
    (s.failures + nows.length = opts.failureThreshold → 0 < nows.length →
      (cbFailN opts s nows).state = CircuitState.OPEN) := by
  intro nows
  induction nows with
  | nil =>
    intro s hs _
    refine ⟨fun _ => ⟨hs, by simp [cbFailN]⟩, fun _ hlen => absurd hlen (by simp)⟩
  | cons t ts ih =>
    intro s hs hle
    have hstep : (cbExecute opts s t false).2 = onFailure opts t s := by
      simp [cbExecute, cbAdmit, hs]
    by_cases htrip : opts.failureThreshold ≤ s.failures + 1
    · -- this first failure already trips; no further calls can be pending
      have hts : ts.length = 0 := by simp at hle; omega
      have hts' : ts = [] := List.eq_nil_of_length_eq_zero hts
      subst hts'
      have : cbFailN opts s [t] = onFailure opts t s := by
        simp [cbFailN, hstep]
      rw [onFailure, hs] at this
      rw [if_pos htrip] at this
      refine ⟨fun hlt => absurd hlt (by simp; omega), fun _ _ => ?_⟩
      simp [this]
    · have hnext : (cbExecute opts s t false).2 =
          ⟨.CLOSED, s.failures + 1, 0, s.nextAttempt⟩ := by
        rw [hstep, onFailure, hs, if_neg htrip]
      have hrec := ih ⟨.CLOSED, s.failures + 1, 0, s.nextAttempt⟩ rfl
        (by show s.failures + 1 + ts.length ≤ opts.failureThreshold; simp at hle; omega)
      have hfold : cbFailN opts s (t :: ts) =
          cbFailN opts ⟨.CLOSED, s.failures + 1, 0, s.nextAttempt⟩ ts := by
        simp [cbFailN, List.foldl_cons, hnext]
      constructor
      · intro hlt
        have h2 := hrec.1 (by
          show s.failures + 1 + ts.length < opts.failureThreshold
          simp at hlt
          omega)
        rw [hfold]
        refine ⟨h2.1, ?_⟩
        rw [h2.2]
        show s.failures + 1 + ts.length = s.failures + (t :: ts).length
        simp [List.length_cons]
        try omega
      · intro heq _
        by_cases hts : 0 < ts.length
        · rw [hfold]
          exact hrec.2 (by
            show s.failures + 1 + ts.length = opts.failureThreshold
            simp at heq
            omega) hts
        · exfalso
          have hl0 : ts.length = 0 := by omega
          have hl1 : (t :: ts).length = 1 := by simp [hl0]
          rw [hl1] at heq
          omega

/-- C8: starting from a fresh `CLOSED` breaker, `failureThreshold`
consecutive failing calls trip it to `OPEN` (with fewer failures it stays
`CLOSED`); while `OPEN` with the current time before `nextAttempt`, every
`execute` call is rejected with the circuit-open error without invoking the
wrapped operation and without changing the state; once `nextAttempt` has
passed, the entry check admits one probe by moving the breaker to
`HALF_OPEN`. -/
theorem circuitBreaker_trips_rejects_probes (opts : CircuitBreakerOptions)
    (nows : List Nat) (na0 : Nat) (s : CBState) (now : Nat) (ok : Bool)
    (hthresh : 1 ≤ opts.failureThreshold) (hlen : nows.length = opts.failureThreshold) :
    (cbFailN opts ⟨.CLOSED, 0, 0, na0⟩ nows).state = CircuitState.OPEN ∧
    (∀ (pre : List Nat), pre.length < opts.failureThreshold →
      (cbFailN opts ⟨.CLOSED, 0, 0, na0⟩ pre).state = CircuitState.CLOSED) ∧
    (s.state = CircuitState.OPEN → now < s.nextAttempt →
      cbExecute opts s now ok = (false, s)) ∧
    (s.state = CircuitState.OPEN → s.nextAttempt ≤ now →
      cbAdmit s now = some ⟨.HALF_OPEN, s.failures, s.successes, s.nextAttempt⟩) := by
  refine ⟨?_, ?_, ?_, ?_⟩
  · have := cbFailN_trips opts nows ⟨.CLOSED, 0, 0, na0⟩ rfl (by simp [hlen])
    exact this.2 (by simp [hlen]) (by omega)
  · intro pre hpre
    have := cbFailN_trips opts pre ⟨.CLOSED, 0, 0, na0⟩ rfl (by simp; omega)
    exact (this.1 (by simp; omega)).1
  · intro hs hlt
    simp [cbExecute, cbAdmit, hs, hlt]
  · intro hs hle
    simp [cbAdmit, hs, Nat.not_lt.mpr hle]

/-- Witness for the circuit-breaker claim: threshold 2, failures at times
5 and 7, a rejected call at time 50 against `nextAttempt = 100`, and an
admitted probe at time 100. -/
theorem circuitBreaker_trips_rejects_probes_witness :
    (cbFailN ⟨2, 1, 60⟩ ⟨.CLOSED, 0, 0, 0⟩ [5, 7]).state = CircuitState.OPEN ∧
    cbExecute ⟨2, 1, 60⟩ ⟨.OPEN, 2, 0, 100⟩ 50 true = (false, ⟨.OPEN, 2, 0, 100⟩) ∧
    cbAdmit ⟨.OPEN, 2, 0, 100⟩ 100 = some ⟨.HALF_OPEN, 2, 0, 100⟩ := by
  have h := circuitBreaker_trips_rejects_probes ⟨2, 1, 60⟩ [5, 7] 0 ⟨.OPEN, 2, 0, 100⟩ 50 true
    (by decide) (by decide)
  refine ⟨h.1, h.2.2.1 rfl (by decide), ?_⟩
  have h2 := circuitBreaker_trips_rejects_probes ⟨2, 1, 60⟩ [5, 7] 0 ⟨.OPEN, 2, 0, 100⟩ 100 true
    (by decide) (by decide)
  exact h2.2.2.2 rfl (by decide)

/-! ## ErrorHandler.sanitizeErrorMessage (src/utils/errorHandler.ts) and the
DockerManager exec/logs error responses (src/docker/DockerManager.ts)

The sanitizer applies five sequential global regex replacements.  Each is
modelled as a left-to-right scan producing non-overlapping replacements, as
`String.prototype.replace` with a `/g` regex does.  For the IPv4 pattern
`\b(?:[0-9]{1,3}\.){3}[0-9]{1,3}\b`, greedy matching with backtracking
succeeds at a position exactly when the maximal digit runs between the dots
have length 1–3 (a longer run cannot backtrack into a dot, since a shorter
candidate is still followed by a digit), so the match length is computed
from the maximal runs directly. -/

def isDigitChar (c : Char) : Bool := decide ('0' ≤ c) && decide (c ≤ '9')

def isHexLower (c : Char) : Bool :=
  (decide ('0' ≤ c) && decide (c ≤ '9')) || (decide ('a' ≤ c) && decide (c ≤ 'f'))

def isWordChar (c : Char) : Bool :=
  (decide ('a' ≤ c) && decide (c ≤ 'z')) || (decide ('A' ≤ c) && decide (c ≤ 'Z')) ||
    isDigitChar c || decide (c = '_')

/-- The character class `[a-zA-Z0-9_\-./]` of the path pattern. -/
def isPathChar (c : Char) : Bool :=
  (decide ('a' ≤ c) && decide (c ≤ 'z')) || (decide ('A' ≤ c) && decide (c ≤ 'Z')) ||
    isDigitChar c || decide (c = '_') || decide (c = '-') || decide (c = '.') ||
    decide (c = '/')

/-- Global replacement of `[0-9a-f]{n}` (with `n` the constant 64 or 12) by
`marker`; the `0 < n` conjunct only rules out the degenerate `n = 0`, which
the source's fixed quantifiers cannot produce. -/
def repHex (n : Nat) (marker : List Char) : List Char → List Char
  | [] => []
  | c :: rest =>
    if 0 < n ∧ ((c :: rest).take n).length = n ∧ ((c :: rest).take n).all isHexLower then
      marker ++ repHex n marker ((c :: rest).drop n)
    else c :: repHex n marker rest
termination_by l => l.length
decreasing_by all_goals (simp_all [List.length_drop]; try omega)

def digitRunLen (l : List Char) : Nat := (l.takeWhile isDigitChar).length

def wordB : Option Char → Bool
  | none => false
  | some c => isWordChar c

/-- One `[0-9]{1,3}\.` group at the head of `l`: its run length and the rest
after the dot. -/
def ipv4Group (l : List Char) : Option (Nat × List Char) :=
  if 1 ≤ digitRunLen l ∧ digitRunLen l ≤ 3 ∧ (l.drop (digitRunLen l)).head? = some '.' then
    some (digitRunLen l, l.drop (digitRunLen l + 1))
  else none

/-- Length of the IPv4 match of `\b(?:[0-9]{1,3}\.){3}[0-9]{1,3}\b` at the
head of `l`, given the preceding character. -/
def ipv4MatchLen (prev : Option Char) (l : List Char) : Option Nat :=
  if wordB prev then none
  else
    match ipv4Group l with
    | none => none
    | some (g1, l1) =>
      match ipv4Group l1 with
      | none => none
      | some (g2, l2) =>
        match ipv4Group l2 with
        | none => none
        | some (g3, l3) =>
          if 1 ≤ digitRunLen l3 ∧ digitRunLen l3 ≤ 3 ∧
              ¬ wordB ((l3.drop (digitRunLen l3)).head?) then
            some (g1 + 1 + g2 + 1 + g3 + 1 + digitRunLen l3)
          else none

lemma ipv4MatchLen_pos (prev : Option Char) (l : List Char) (k : Nat)
    (h : ipv4MatchLen prev l = some k) : 0 < k := by
  unfold ipv4MatchLen at h
  repeat' split at h
  all_goals simp_all
  omega

set_option linter.unusedVariables false in
/-- Global replacement of IPv4 addresses by `<ip-address>`; `prev` is the
character preceding the scan position in the original string (boundaries are
judged against the original text, as `replace` does). -/
def repIPv4 (prev : Option Char) : List Char → List Char
  | [] => []
  | c :: rest =>
    match h : ipv4MatchLen prev (c :: rest) with
    | some k =>
      "<ip-address>".toList ++
        repIPv4 (((c :: rest).take k).getLast?) ((c :: rest).drop k)
    | none => c :: repIPv4 (some c) rest
termination_by l => l.length
decreasing_by
  all_goals simp_all [List.length_drop]
  have := ipv4MatchLen_pos _ _ _ h
  omega

/-- Global replacement of `:[0-9]{2,5}` by `:<port>` (greedy: up to five
digits consumed per match). -/
def repPort : List Char → List Char
  | [] => []
  | c :: rest =>
    if c = ':' ∧ 2 ≤ digitRunLen rest then
      ":<port>".toList ++ repPort (rest.drop (min 5 (digitRunLen rest)))
    else c :: repPort rest
termination_by l => l.length
decreasing_by all_goals (simp_all [List.length_drop]; try omega)

/-- Backtracking search for `\/[a-zA-Z0-9_\-./]+\/(docker|containers|var\/lib)`
after a leading `/`: the greedy `+` consumes `k` class characters (largest
`k ≥ 1` first) and must leave `/docker`, `/containers` or `/var/lib` at the
cut. -/
def pathFindK (l : List Char) : Nat → Option (Nat × List Char)
  | 0 => none
  | k + 1 =>
    if ("/docker".toList).isPrefixOf (l.drop (k + 1)) then some (k + 1, "docker".toList)
    else if ("/containers".toList).isPrefixOf (l.drop (k + 1)) then
      some (k + 1, "containers".toList)
    else if ("/var/lib".toList).isPrefixOf (l.drop (k + 1)) then
      some (k + 1, "var/lib".toList)
    else pathFindK l k

/-- Global replacement for the path pattern, with replacement `/<path>/$1`. -/
def repPath : List Char → List Char
  | [] => []
  | c :: rest =>
    if c = '/' then
      match pathFindK rest (rest.takeWhile isPathChar).length with
      | some (k, alt) =>
        "/<path>/".toList ++ alt ++ repPath (rest.drop (k + 1 + alt.length))
      | none => c :: repPath rest
    else c :: repPath rest
termination_by l => l.length
decreasing_by all_goals (simp_all [List.length_drop]; try omega)

/-- `ErrorHandler.sanitizeErrorMessage`: the five replacements in source
order — paths, 64-hex container IDs, 12-hex short IDs, IPv4 addresses,
`:port` suffixes. -/
def sanitizeErrorMessage (message : List Char) : List Char :=
  repPort (repIPv4 none (repHex 12 "<short-id>".toList
    (repHex 64 "<container-id>".toList (repPath message))))

structure ExecErrorBody where
  error : List Char
  isError : Bool
deriving DecidableEq, Repr

/-- The `catch` block of `DockerManager.exec`: the response body carries the
underlying `error.message` verbatim (no sanitization is applied on this
path; `ErrorHandler` has no caller there). -/
def dockerExecCatchBody (errorMessage : List Char) : ExecErrorBody :=
  ⟨errorMessage, true⟩

/-- The `catch` block of `DockerManager.logs`: likewise verbatim. -/
def dockerLogsCatchBody (errorMessage : List Char) : ExecErrorBody :=
  ⟨errorMessage, true⟩

/-- Counterexample to C2 as stated: for the underlying runtime error
`connect ECONNREFUSED 172.17.0.2:2375`, the error field of the exec error
response is the raw message — `DockerManager.exec`'s catch block embeds
`error.message` directly — while `ErrorHandler.sanitizeErrorMessage` (which
no exec/logs path invokes) would have replaced the address and port. -/
theorem dockerExec_error_not_sanitized_cex :
    (dockerExecCatchBody "connect ECONNREFUSED 172.17.0.2:2375".toList).error =
      "connect ECONNREFUSED 172.17.0.2:2375".toList ∧
    sanitizeErrorMessage "connect ECONNREFUSED 172.17.0.2:2375".toList =
      "connect ECONNREFUSED <ip-address>:<port>".toList ∧
    (dockerExecCatchBody "connect ECONNREFUSED 172.17.0.2:2375".toList).error ≠
      sanitizeErrorMessage "connect ECONNREFUSED 172.17.0.2:2375".toList ∧
    (dockerLogsCatchBody "connect ECONNREFUSED 172.17.0.2:2375".toList).error ≠
      sanitizeErrorMessage "connect ECONNREFUSED 172.17.0.2:2375".toList := by
  refine ⟨rfl, ?_, ?_, ?_⟩ <;>
    simp [dockerExecCatchBody, dockerLogsCatchBody, sanitizeErrorMessage, repPath.eq_def,
      repHex.eq_def, repIPv4.eq_def, repPort.eq_def, pathFindK.eq_def, ipv4MatchLen,
      ipv4Group, digitRunLen, wordB, isDigitChar, isHexLower, isWordChar, isPathChar]

/-- C2 (amended): the error responses of `DockerManager.exec` and
`DockerManager.logs` carry the underlying error message verbatim, with
`isError = true` — `ErrorHandler.sanitizeErrorMessage` implements the
path / 64-hex / 12-hex / IPv4 / port replacements but is never invoked on
those paths, so raw runtime error text does reach the caller. -/
theorem dockerExec_error_passthrough_amended (msg : List Char) :
    (dockerExecCatchBody msg).error = msg ∧ (dockerExecCatchBody msg).isError = true ∧
    (dockerLogsCatchBody msg).error = msg ∧ (dockerLogsCatchBody msg).isError = true ∧
    sanitizeErrorMessage
        "Error at /data/lib/docker/overlay2 for 0123456789ab host 10.0.0.5:8080".toList =
      "Error at /<path>/docker/overlay2 for <short-id> host <ip-address>:<port>".toList := by
  refine ⟨rfl, rfl, rfl, rfl, ?_⟩
  simp [sanitizeErrorMessage, repPath.eq_def, repHex.eq_def, repIPv4.eq_def, repPort.eq_def,
    pathFindK.eq_def, ipv4MatchLen, ipv4Group, digitRunLen, wordB, isDigitChar, isHexLower,
    isWordChar, isPathChar]

/-! ## ShellCommandParser (src/security/ShellCommandParser.ts)

Strings are `List Char`.  The quote characters and braces are named
constants to keep the text free of delimiter-ambiguous literals.

The regex scanning loops are written with an explicit fuel argument that is
consumed one unit per loop iteration; every iteration also consumes at least
one character of the input, so fuel `input.length` makes the fuel bound
unreachable and the functions total evaluators of the loops. -/

def dqc : Char := Char.ofNat 34

def sqc : Char := Char.ofNat 39

def bqc : Char := Char.ofNat 96

def lbc : Char := Char.ofNat 123

def rbc : Char := Char.ofNat 125

/-- The WHATWG/ECMA whitespace characters relevant here (space, tab, LF, VT,
FF, CR, NBSP; the rarer Unicode space code points are not modelled). -/
def isJsSpace (c : Char) : Bool :=
  decide (c = ' ') || decide (c = '\t') || decide (c = '\n') || decide (c.toNat = 11) ||
    decide (c.toNat = 12) || decide (c = '\r') || decide (c.toNat = 160)

def jsTrim (l : List Char) : List Char :=
  ((l.dropWhile isJsSpace).reverse.dropWhile isJsSpace).reverse

def joinSpace (tokens : List (List Char)) : List Char := List.intercalate [' '] tokens

/-- The scanning loop of `/\$\(([^)]+)\)/g`: at `$(`, the greedy `[^)]+`
runs to the first `)`; on success the capture is emitted and scanning
resumes after the match, otherwise scanning resumes one character later. -/
def scanDPFuel : Nat → List Char → List (List Char)
  | 0, _ => []
  | _ + 1, [] => []
  | _ + 1, [_] => []
  | fuel + 1, c :: c2 :: rest2 =>
    if c = '$' ∧ c2 = '(' then
      if (rest2.takeWhile (fun x => x ≠ ')')).length ≠ 0 ∧
          (rest2.drop ((rest2.takeWhile (fun x => x ≠ ')')).length)).head? = some ')' then
        (rest2.takeWhile (fun x => x ≠ ')')) ::
          scanDPFuel fuel (rest2.drop ((rest2.takeWhile (fun x => x ≠ ')')).length + 1))
      else scanDPFuel fuel (c2 :: rest2)
    else scanDPFuel fuel (c2 :: rest2)

def scanDollarParen (l : List Char) : List (List Char) := scanDPFuel l.length l

/-- The scanning loop of the backtick pattern (one-or-more non-backtick
characters between two backticks). -/
def scanBTFuel : Nat → List Char → List (List Char)
  | 0, _ => []
  | _ + 1, [] => []
  | fuel + 1, c :: rest =>
    if c = bqc then
      if (rest.takeWhile (fun x => x ≠ bqc)).length ≠ 0 ∧
          (rest.drop ((rest.takeWhile (fun x => x ≠ bqc)).length)).head? = some bqc then
        (rest.takeWhile (fun x => x ≠ bqc)) ::
          scanBTFuel fuel (rest.drop ((rest.takeWhile (fun x => x ≠ bqc)).length + 1))
      else scanBTFuel fuel rest
    else scanBTFuel fuel rest

def scanBacktick (l : List Char) : List (List Char) := scanBTFuel l.length l

/-- The scanning loop of the `${...}` pattern (all matches, unfiltered). -/
def scanDBFuel : Nat → List Char → List (List Char)
  | 0, _ => []
  | _ + 1, [] => []
  | _ + 1, [_] => []
  | fuel + 1, c :: c2 :: rest2 =>
    if c = '$' ∧ c2 = lbc then
      if (rest2.takeWhile (fun x => x ≠ rbc)).length ≠ 0 ∧
          (rest2.drop ((rest2.takeWhile (fun x => x ≠ rbc)).length)).head? = some rbc then
        (rest2.takeWhile (fun x => x ≠ rbc)) ::
          scanDBFuel fuel (rest2.drop ((rest2.takeWhile (fun x => x ≠ rbc)).length + 1))
      else scanDBFuel fuel (c2 :: rest2)
    else scanDBFuel fuel (c2 :: rest2)

def scanDollarBrace (l : List Char) : List (List Char) := scanDBFuel l.length l

/-- The `${...}` command-likeness filter of `extractSubstitutions`. -/
def braceLooksCommand (s : List Char) : Bool :=
  s.contains ' ' || s.contains ';' || s.contains '|'

/-- `ShellCommandParser.extractSubstitutions`. -/
def extractSubstitutions (input : List Char) : List (List Char) :=
  scanDollarParen input ++ scanBacktick input ++
    (scanDollarBrace input).filter braceLooksCommand

/-- `ShellCommandParser.tokenize`'s character loop.  `cur` is the token
being accumulated, `toks` the finished tokens; the two-character operators
consume their second character; a backslash-newline is a line continuation.
Fuel is spent once per iteration and every iteration consumes at least one
character, so fuel `input.length` never runs out. -/
def tokenizeGo : Nat → Bool → Bool → Bool → List Char → List (List Char) →
    List Char → List (List Char)
  | _, _, _, _, cur, toks, [] => if cur.isEmpty then toks else toks ++ [cur]
  | 0, _, _, _, cur, toks, _ => if cur.isEmpty then toks else toks ++ [cur]
  | f + 1, inS, inD, esc, cur, toks, c :: rest =>
    if esc then tokenizeGo f inS inD false (cur ++ [c]) toks rest
    else if c = '\\' ∧ ¬ inS then
      match rest with
      | '\n' :: rest2 => tokenizeGo f inS inD false cur toks rest2
      | _ => tokenizeGo f inS inD true (cur ++ [c]) toks rest
    else if c = sqc ∧ ¬ inD then tokenizeGo f (!inS) inD false (cur ++ [c]) toks rest
    else if c = dqc ∧ ¬ inS then tokenizeGo f inS (!inD) false (cur ++ [c]) toks rest
    else if ¬ inS ∧ ¬ inD then
      if c = ' ' ∨ c = '\t' ∨ c = '\n' then
        tokenizeGo f inS inD false [] (if cur.isEmpty then toks else toks ++ [cur]) rest
      else if c = ';' ∨ c = '|' ∨ c = '&' ∨ c = '<' ∨ c = '>' ∨ c = '(' ∨ c = ')' then
        match rest with
        | c2 :: rest2 =>
          if (c = '|' ∨ c = '&' ∨ c = '>' ∨ c = '<') ∧ c2 = c then
            tokenizeGo f inS inD false []
              ((if cur.isEmpty then toks else toks ++ [cur]) ++ [[c, c]]) rest2
          else
            tokenizeGo f inS inD false []
              ((if cur.isEmpty then toks else toks ++ [cur]) ++ [[c]]) (c2 :: rest2)
        | [] => (if cur.isEmpty then toks else toks ++ [cur]) ++ [[c]]
      else tokenizeGo f inS inD false (cur ++ [c]) toks rest
    else tokenizeGo f inS inD false (cur ++ [c]) toks rest

/-- `ShellCommandParser.tokenize`. -/
def tokenize (input : List Char) : List (List Char) :=
  tokenizeGo input.length false false false [] [] input

/-- The loop of `ShellCommandParser.separateCommands`. -/
def sepGo (cur : List (List Char)) (cmds : List (List (List Char))) :
    List (List Char) → List (List (List Char))
  | [] => if cur.isEmpty then cmds else cmds ++ [cur]
  | t :: rest =>
    if t = [';'] ∨ t = ['|'] ∨ t = ['|', '|'] ∨ t = ['&', '&'] ∨ t = ['&'] then
      sepGo [] (if cur.isEmpty then cmds else cmds ++ [cur]) rest
    else sepGo (cur ++ [t]) cmds rest

/-- `ShellCommandParser.separateCommands`. -/
def separateCommands (tokens : List (List Char)) : List (List (List Char)) :=
  sepGo [] [] tokens

/-- Every emitted `$()` capture is at least three characters shorter than the
scanned text (it lacks its `$`, `(` and `)`); in particular the recursion of
`extractAllCommands` strictly shrinks its input. -/
theorem scanDPFuel_length (f : Nat) :
    ∀ (l : List Char), ∀ s ∈ scanDPFuel f l, s.length + 3 ≤ l.length := by
  induction f with
  | zero => intro l s hs; simp [scanDPFuel] at hs
  | succ f ih =>
    intro l s hs
    match l with
    | [] => simp [scanDPFuel] at hs
    | [c] => simp [scanDPFuel] at hs
    | c :: c2 :: rest2 =>
      rw [scanDPFuel] at hs
      by_cases hco : c = '$' ∧ c2 = '('
      · rw [if_pos hco] at hs
        by_cases hm : (rest2.takeWhile (fun x => x ≠ ')')).length ≠ 0 ∧
            (rest2.drop ((rest2.takeWhile (fun x => x ≠ ')')).length)).head? = some ')'
        · rw [if_pos hm] at hs
          rcases List.mem_cons.mp hs with rfl | hs
          · have h3 : rest2.drop ((rest2.takeWhile (fun x => x ≠ ')')).length) ≠ [] := by
              intro hnil
              rw [hnil] at hm
              simp at hm
            have h4 : (rest2.takeWhile (fun x => x ≠ ')')).length < rest2.length := by
              by_contra hge
              push_neg at hge
              exact h3 (List.drop_eq_nil_of_le hge)
            simp only [List.length_cons]
            omega
          · have := ih _ s hs
            simp [List.length_drop] at this ⊢
            omega
        · rw [if_neg hm] at hs
          have := ih _ s hs
          simp at this ⊢
          omega
      · rw [if_neg hco] at hs
        have := ih _ s hs
        simp at this ⊢
        omega

/-- Every emitted backtick capture is at least two characters shorter than
the scanned text. -/
theorem scanBTFuel_length (f : Nat) :
    ∀ (l : List Char), ∀ s ∈ scanBTFuel f l, s.length + 2 ≤ l.length := by
  induction f with
  | zero => intro l s hs; simp [scanBTFuel] at hs
  | succ f ih =>
    intro l s hs
    match l with
    | [] => simp [scanBTFuel] at hs
    | c :: rest =>
      rw [scanBTFuel] at hs
      by_cases hc : c = bqc
      · rw [if_pos hc] at hs
        by_cases hm : (rest.takeWhile (fun x => x ≠ bqc)).length ≠ 0 ∧
            (rest.drop ((rest.takeWhile (fun x => x ≠ bqc)).length)).head? = some bqc
        · rw [if_pos hm] at hs
          rcases List.mem_cons.mp hs with rfl | hs
          · have h3 : rest.drop ((rest.takeWhile (fun x => x ≠ bqc)).length) ≠ [] := by
              intro hnil
              rw [hnil] at hm
              simp at hm
            have h4 : (rest.takeWhile (fun x => x ≠ bqc)).length < rest.length := by
              by_contra hge
              push_neg at hge
              exact h3 (List.drop_eq_nil_of_le hge)
            simp only [List.length_cons]
            omega
          · have := ih _ s hs
            simp [List.length_drop] at this ⊢
            omega
        · rw [if_neg hm] at hs
          have := ih _ s hs
          simp at this ⊢
          omega
      · rw [if_neg hc] at hs
        have := ih _ s hs
        simp at this ⊢
        omega

/-- Every emitted `${}` capture is at least three characters shorter than
the scanned text. -/
theorem scanDBFuel_length (f : Nat) :
    ∀ (l : List Char), ∀ s ∈ scanDBFuel f l, s.length + 3 ≤ l.length := by
  induction f with
  | zero => intro l s hs; simp [scanDBFuel] at hs
  | succ f ih =>
    intro l s hs
    match l with
    | [] => simp [scanDBFuel] at hs
    | [c] => simp [scanDBFuel] at hs
    | c :: c2 :: rest2 =>
      rw [scanDBFuel] at hs
      by_cases hco : c = '$' ∧ c2 = lbc
      · rw [if_pos hco] at hs
        by_cases hm : (rest2.takeWhile (fun x => x ≠ rbc)).length ≠ 0 ∧
            (rest2.drop ((rest2.takeWhile (fun x => x ≠ rbc)).length)).head? = some rbc
        · rw [if_pos hm] at hs
          rcases List.mem_cons.mp hs with rfl | hs
          · have h3 : rest2.drop ((rest2.takeWhile (fun x => x ≠ rbc)).length) ≠ [] := by
              intro hnil
              rw [hnil] at hm
              simp at hm
            have h4 : (rest2.takeWhile (fun x => x ≠ rbc)).length < rest2.length := by
              by_contra hge
              push_neg at hge
              exact h3 (List.drop_eq_nil_of_le hge)
            simp only [List.length_cons]
            omega
          · have := ih _ s hs
            simp [List.length_drop] at this ⊢
            omega
        · rw [if_neg hm] at hs
          have := ih _ s hs
          simp at this ⊢
          omega
      · rw [if_neg hco] at hs
        have := ih _ s hs
        simp at this ⊢
        omega

theorem extractSubstitutions_length (input : List Char) :
    ∀ s ∈ extractSubstitutions input, s.length + 2 ≤ input.length := by
  intro s hs
  rcases List.mem_append.mp hs with hs | hs
  · rcases List.mem_append.mp hs with hs | hs
    · have := scanDPFuel_length input.length input s hs
      omega
    · exact scanBTFuel_length input.length input s hs
  · have := scanDBFuel_length input.length input s (List.mem_filter.mp hs).1
    omega

/-- `ShellCommandParser.extractAllCommands` (recursion into substitutions,
then the tokenized, separated, space-joined and trimmed top-level commands).
Each substitution is at least two characters shorter than its parent input,
so fuel `input.length` is never exhausted (`extractSubstitutions_length`). -/
def extractAllCommandsF : Nat → List Char → List (List Char)
  | 0, _ => []
  | f + 1, input =>
    ((extractSubstitutions input).map (fun sub => extractAllCommandsF f sub)).flatten ++
      (separateCommands (tokenize input)).filterMap
        (fun cmdTokens =>
          if (jsTrim (joinSpace cmdTokens)).isEmpty then none
          else some (jsTrim (joinSpace cmdTokens)))

def extractAllCommands (input : List Char) : List (List Char) :=
  extractAllCommandsF input.length input

structure ParseResult where
  commands : List (List Char)
  suspicious : List (List Char)
deriving DecidableEq, Repr

/-- The `suspicious` list of `ShellCommandParser.parse`: the full matches of
the three substitution patterns, reconstructed from the capture scanners
(the `${...}` pattern here is unfiltered, unlike `extractSubstitutions`). -/
def parseSuspicious (command : List Char) : List (List Char) :=
  (scanDollarParen command).map (fun s => '$' :: '(' :: (s ++ [')'])) ++
    (scanBacktick command).map (fun s => bqc :: (s ++ [bqc])) ++
    (scanDollarBrace command).map (fun s => '$' :: lbc :: (s ++ [rbc]))

/-- `ShellCommandParser.parse`. -/
def ShellCommandParser.parse (command : List Char) : ParseResult :=
  ⟨extractAllCommands command, parseSuspicious command⟩

theorem scanDPFuel_of_no_dollar (f : Nat) :
    ∀ l : List Char, '$' ∉ l → scanDPFuel f l = [] := by
  induction f with
  | zero => intro l _; simp [scanDPFuel]
  | succ f ih =>
    intro l hl
    match l with
    | [] => simp [scanDPFuel]
    | [c] => simp [scanDPFuel]
    | c :: c2 :: rest2 =>
      have hc : ¬ c = '$' := by
        intro h
        subst h
        exact hl (List.mem_cons_self _ _)
      rw [scanDPFuel, if_neg (fun hco => hc hco.1)]
      exact ih (c2 :: rest2) (fun hm => hl (List.mem_cons_of_mem _ hm))

theorem scanBTFuel_of_no_backtick (f : Nat) :
    ∀ l : List Char, bqc ∉ l → scanBTFuel f l = [] := by
  induction f with
  | zero => intro l _; simp [scanBTFuel]
  | succ f ih =>
    intro l hl
    match l with
    | [] => simp [scanBTFuel]
    | c :: rest =>
      have hc : ¬ c = bqc := by
        intro h
        subst h
        exact hl (List.mem_cons_self _ _)
      rw [scanBTFuel, if_neg hc]
      exact ih rest (fun hm => hl (List.mem_cons_of_mem _ hm))

theorem scanDBFuel_of_no_dollar (f : Nat) :
    ∀ l : List Char, '$' ∉ l → scanDBFuel f l = [] := by
  induction f with
  | zero => intro l _; simp [scanDBFuel]
  | succ f ih =>
    intro l hl
    match l with
    | [] => simp [scanDBFuel]
    | [c] => simp [scanDBFuel]
    | c :: c2 :: rest2 =>
      have hc : ¬ c = '$' := by
        intro h
        subst h
        exact hl (List.mem_cons_self _ _)
      rw [scanDBFuel, if_neg (fun hco => hc hco.1)]
      exact ih (c2 :: rest2) (fun hm => hl (List.mem_cons_of_mem _ hm))

theorem mem_span_elim {a b : Char} {s : List Char} (hab : ¬ a = b) (hs : a ∉ s) :
    a ∉ (b :: (s ++ [b])) := by
  intro hmem
  rcases List.mem_cons.mp hmem with h | h
  · exact hab h
  · rcases List.mem_append.mp h with h | h
    · exact hs h
    · exact hab (List.mem_singleton.mp h)

/-- Inside a double-quoted region only a `"` (closing it) or a backslash is
special; all other characters are appended to the current token. -/
theorem tokenizeGo_inD (s : List Char) (h : ∀ c ∈ s, ¬ c = dqc ∧ ¬ c = '\\') :
    ∀ f cur toks, s.length < f →
      tokenizeGo f false true false cur toks (s ++ [dqc]) = toks ++ [cur ++ (s ++ [dqc])] := by
  induction s with
  | nil =>
    intro f cur toks hf
    match f, hf with
    | f' + 1, _ =>
      simp [tokenizeGo, (by decide : ¬ (dqc = '\\')), (by decide : ¬ (dqc = sqc))]
  | cons c s' ih =>
    intro f cur toks hf
    match f, hf with
    | f' + 1, hf2 =>
      have hc := h c (List.mem_cons_self _ _)
      have hrec := ih (fun x hx => h x (List.mem_cons_of_mem _ hx)) f' (cur ++ [c]) toks
        (by simp at hf2; omega)
      simp only [List.cons_append]
      simp [tokenizeGo, hc.1, hc.2, hrec]

/-- Inside a single-quoted region only a `'` (closing it) is special; even
backslashes and double quotes are appended verbatim. -/
theorem tokenizeGo_inS (s : List Char) (h : ∀ c ∈ s, ¬ c = sqc) :
    ∀ f cur toks, s.length < f →
      tokenizeGo f true false false cur toks (s ++ [sqc]) = toks ++ [cur ++ (s ++ [sqc])] := by
  induction s with
  | nil =>
    intro f cur toks hf
    match f, hf with
    | f' + 1, _ =>
      simp [tokenizeGo, (by decide : ¬ (sqc = '\\'))]
  | cons c s' ih =>
    intro f cur toks hf
    match f, hf with
    | f' + 1, hf2 =>
      have hc := h c (List.mem_cons_self _ _)
      have hrec := ih (fun x hx => h x (List.mem_cons_of_mem _ hx)) f' (cur ++ [c]) toks
        (by simp at hf2; omega)
      simp only [List.cons_append]
      simp [tokenizeGo, hc, hrec]

/-- A command that is one double-quoted span tokenizes to that single token. -/
theorem tokenize_dq_span (s : List Char) (hdq : dqc ∉ s) (hbs : '\\' ∉ s) :
    tokenize (dqc :: (s ++ [dqc])) = [dqc :: (s ++ [dqc])] := by
  have hlen : (dqc :: (s ++ [dqc])).length = s.length + 1 + 1 := by simp
  rw [tokenize, hlen]
  have h1 : tokenizeGo (s.length + 1 + 1) false false false [] [] (dqc :: (s ++ [dqc])) =
      tokenizeGo (s.length + 1) false true false [dqc] [] (s ++ [dqc]) := by
    simp [tokenizeGo, (by decide : ¬ (dqc = '\\')), (by decide : ¬ (dqc = sqc))]
  rw [h1, tokenizeGo_inD s
    (fun c hc => ⟨fun he => hdq (he ▸ hc), fun he => hbs (he ▸ hc)⟩)
    (s.length + 1) [dqc] [] (by omega)]
  simp

/-- A command that is one single-quoted span tokenizes to that single token. -/
theorem tokenize_sq_span (s : List Char) (hsq : sqc ∉ s) :
    tokenize (sqc :: (s ++ [sqc])) = [sqc :: (s ++ [sqc])] := by
  have hlen : (sqc :: (s ++ [sqc])).length = s.length + 1 + 1 := by simp
  rw [tokenize, hlen]
  have h1 : tokenizeGo (s.length + 1 + 1) false false false [] [] (sqc :: (s ++ [sqc])) =
      tokenizeGo (s.length + 1) true false false [sqc] [] (s ++ [sqc]) := by
    simp [tokenizeGo, (by decide : ¬ (sqc = '\\'))]
  rw [h1, tokenizeGo_inS s (fun c hc => fun he => hsq (he ▸ hc))
    (s.length + 1) [sqc] [] (by omega)]
  simp

/-- A command consisting of one quoted span (for a non-separator, non-space
quote character) parses to exactly that one command and nothing suspicious. -/
theorem parse_span_aux (q : Char) (s : List Char)
    (htok : tokenize (q :: (s ++ [q])) = [q :: (s ++ [q])])
    (hq : isJsSpace q = false)
    (hq1 : ¬ q = ';') (hq2 : ¬ q = '|') (hq3 : ¬ q = '&')
    (hdol : '$' ∉ (q :: (s ++ [q])))
    (hbq : bqc ∉ (q :: (s ++ [q]))) :
    ShellCommandParser.parse (q :: (s ++ [q])) = ⟨[q :: (s ++ [q])], []⟩ := by
  have hlen2 : (q :: (s ++ [q])).length = s.length + 1 + 1 := by simp
  have hsubP := scanDPFuel_of_no_dollar (q :: (s ++ [q])).length _ hdol
  have hsubB := scanBTFuel_of_no_backtick (q :: (s ++ [q])).length _ hbq
  have hsubD := scanDBFuel_of_no_dollar (q :: (s ++ [q])).length _ hdol
  rw [hlen2] at hsubP hsubB hsubD
  have hsub : extractSubstitutions (q :: (s ++ [q])) = [] := by
    simp [extractSubstitutions, scanDollarParen, scanBacktick, scanDollarBrace,
      hsubP, hsubB, hsubD]
  have hsusp : parseSuspicious (q :: (s ++ [q])) = [] := by
    simp [parseSuspicious, scanDollarParen, scanBacktick, scanDollarBrace,
      hsubP, hsubB, hsubD]
  have hsep : separateCommands [q :: (s ++ [q])] = [[q :: (s ++ [q])]] := by
    simp [separateCommands, sepGo, hq1, hq2, hq3]
  have hjoin : joinSpace [q :: (s ++ [q])] = q :: (s ++ [q]) := by
    simp [joinSpace, List.intercalate]
  have htrim : jsTrim (q :: (s ++ [q])) = q :: (s ++ [q]) := by
    simp [jsTrim, hq, List.dropWhile_cons, List.reverse_append, List.reverse_cons]
  have hcmds : extractAllCommands (q :: (s ++ [q])) = [q :: (s ++ [q])] := by
    rw [extractAllCommands, hlen2]
    simp only [extractAllCommandsF]
    rw [hsub, htok, hsep]
    simp [hjoin, htrim]
  simp [ShellCommandParser.parse, hcmds, hsusp]

/-- C9: `ShellCommandParser.parse` splits the token stream into separate
commands only at unquoted shell operators: the pipeline
`cat file.txt | grep pattern | wc -l` yields its three stages as separate
command strings, while an input that is a single double-quoted span (no
unescaped inner `"`) or single-quoted span (no inner `'`) is never split,
whatever separators it contains — it parses to exactly one command. -/
theorem shellParser_splits_only_unquoted_operators
    (s t : List Char)
    (hdq : dqc ∉ s) (hbs : '\\' ∉ s) (hdolS : '$' ∉ s) (hbqS : bqc ∉ s)
    (hsq : sqc ∉ t) (hdolT : '$' ∉ t) (hbqT : bqc ∉ t) :
    ShellCommandParser.parse "cat file.txt | grep pattern | wc -l".toList =
      ⟨["cat file.txt".toList, "grep pattern".toList, "wc -l".toList], []⟩ ∧
    ShellCommandParser.parse (dqc :: (s ++ [dqc])) = ⟨[dqc :: (s ++ [dqc])], []⟩ ∧
    ShellCommandParser.parse (sqc :: (t ++ [sqc])) = ⟨[sqc :: (t ++ [sqc])], []⟩ := by
  refine ⟨by decide, ?_, ?_⟩
  · exact parse_span_aux dqc s (tokenize_dq_span s hdq hbs) (by decide) (by decide)
      (by decide) (by decide) (mem_span_elim (by decide) hdolS)
      (mem_span_elim (by decide) hbqS)
  · exact parse_span_aux sqc t (tokenize_sq_span t hsq) (by decide) (by decide)
      (by decide) (by decide) (mem_span_elim (by decide) hdolT)
      (mem_span_elim (by decide) hbqT)

theorem shellParser_splits_only_unquoted_operators_witness :
    ShellCommandParser.parse (dqc :: ("echo hi; rm -rf /".toList ++ [dqc])) =
      ⟨[dqc :: ("echo hi; rm -rf /".toList ++ [dqc])], []⟩ ∧
    ShellCommandParser.parse (sqc :: ("a | b && c".toList ++ [sqc])) =
      ⟨[sqc :: ("a | b && c".toList ++ [sqc])], []⟩ :=
  ⟨(shellParser_splits_only_unquoted_operators "echo hi; rm -rf /".toList
      "a | b && c".toList (by decide) (by decide) (by decide) (by decide) (by decide)
      (by decide) (by decide)).2.1,
   (shellParser_splits_only_unquoted_operators "echo hi; rm -rf /".toList
      "a | b && c".toList (by decide) (by decide) (by decide) (by decide) (by decide)
      (by decide) (by decide)).2.2⟩

/-! ## SecurityManager (src/security/SecurityManager.ts)

The fixed regex literals of `checkShellInjection` and
`containsDangerousPatterns` are modelled by a small token language
(`RTok`) with a backtracking matcher; `test` is existence of a match at
some position, which is insensitive to greedy-versus-lazy quantifier
order, so the disjunction-style matcher below decides exactly the JS
`RegExp.test` of those patterns (top-level alternations are expanded into
lists of token sequences).  The matcher carries fuel spent once per token
or character consumed; `tokens.length + text.length + 1` never runs out. -/

inductive RCls where
  | ws
  | notCh (c : Char)
  | dot
  | dev
deriving DecidableEq, Repr

/-- `\s` (common subset), `[^c]`, `.`, and `[^\/\s]` (device-name class). -/
def clsMatch : RCls → Char → Bool
  | .ws, c => isJsSpace c
  | .notCh x, c => decide (¬ c = x)
  | .dot, c => decide (¬ (c = '\n' ∨ c = '\r' ∨ c.toNat = 0x2028 ∨ c.toNat = 0x2029))
  | .dev, c => decide (¬ c = '/') && ! isJsSpace c

inductive RTok where
  | lit (c : Char) (ci : Bool)
  | cls (k : RCls)
  | star (k : RCls)
  | plus (k : RCls)
  | opt (c : Char) (ci : Bool)
  | bound
deriving DecidableEq, Repr

def asciiLower (c : Char) : Char :=
  if decide ('A' ≤ c) && decide (c ≤ 'Z') then Char.ofNat (c.toNat + 32) else c

/-- Literal comparison, case-folded when the pattern has the `i` flag. -/
def ciEq (a b : Char) (ci : Bool) : Bool :=
  if ci then decide (asciiLower a = asciiLower b) else decide (a = b)

/-- Match the token sequence at the current position; `prev` is the
character before the position (for `\b`). -/
def matchAtF : Nat → Option Char → List RTok → List Char → Bool
  | 0, _, _, _ => false
  | f + 1, prev, ts, s =>
    match ts with
    | [] => true
    | .lit c ci :: ts2 =>
      match s with
      | [] => false
      | x :: xs => ciEq x c ci && matchAtF f (some x) ts2 xs
    | .cls k :: ts2 =>
      match s with
      | [] => false
      | x :: xs => clsMatch k x && matchAtF f (some x) ts2 xs
    | .star k :: ts2 =>
      matchAtF f prev ts2 s ||
        (match s with
         | [] => false
         | x :: xs => clsMatch k x && matchAtF f (some x) (RTok.star k :: ts2) xs)
    | .plus k :: ts2 =>
      match s with
      | [] => false
      | x :: xs => clsMatch k x && matchAtF f (some x) (RTok.star k :: ts2) xs
    | .opt c ci :: ts2 =>
      (match s with
       | x :: xs => ciEq x c ci && matchAtF f (some x) ts2 xs
       | [] => false) || matchAtF f prev ts2 s
    | .bound :: ts2 =>
      (wordB prev != (match s with | x :: _ => isWordChar x | [] => false)) &&
        matchAtF f prev ts2 s

def matchAt (prev : Option Char) (ts : List RTok) (s : List Char) : Bool :=
  matchAtF (ts.length + s.length + 1) prev ts s

def regexTestGo (ts : List RTok) : Option Char → List Char → Bool
  | prev, [] => matchAt prev ts []
  | prev, c :: xs => matchAt prev ts (c :: xs) || regexTestGo ts (some c) xs

/-- `RegExp.test`: a match exists starting at some position. -/
def regexTest (ts : List RTok) (s : List Char) : Bool := regexTestGo ts none s

/-- A sequence of literal tokens. -/
def lits (s : String) (ci : Bool) : List RTok := s.toList.map (fun c => RTok.lit c ci)

/-- The fifteen `injectionPatterns` of `checkShellInjection`, in order. -/
def injectionPatterns : List (List RTok) :=
  [[RTok.lit ';' true, RTok.star .ws] ++ lits "rm" true ++ [RTok.plus .ws] ++ lits "-rf" true,
   lits "&&" true ++ [RTok.star .ws] ++ lits "rm" true ++ [RTok.plus .ws] ++ lits "-rf" true,
   [RTok.lit '|' true, RTok.star .ws] ++ lits "rm" true ++ [RTok.plus .ws] ++ lits "-rf" true,
   [RTok.lit bqc true, RTok.star (.notCh bqc)] ++ lits "rm" true ++ [RTok.plus .ws] ++
     lits "-rf" true,
   lits "$(" true ++ [RTok.star (.notCh ')')] ++ lits "rm" true ++ [RTok.plus .ws] ++
     lits "-rf" true,
   [RTok.lit ';' true, RTok.star .ws] ++ lits "dd" true ++ [RTok.plus .ws] ++ lits "if=" true,
   lits "&&" true ++ [RTok.star .ws] ++ lits "dd" true ++ [RTok.plus .ws] ++ lits "if=" true,
   [RTok.lit '|' true, RTok.star .ws] ++ lits "dd" true ++ [RTok.plus .ws] ++ lits "if=" true,
   [RTok.lit ';' true, RTok.star .ws] ++ lits "mkfs" true,
   lits "&&" true ++ [RTok.star .ws] ++ lits "mkfs" true,
   [RTok.lit '>' false, RTok.star .ws] ++ lits "/dev/" false ++ [RTok.plus .dev],
   [RTok.lit ';' true, RTok.star .ws] ++ lits "reboot" true,
   [RTok.lit ';' true, RTok.star .ws] ++ lits "shutdown" true,
   [RTok.lit ';' true, RTok.star .ws] ++ lits "halt" true,
   [RTok.lit ';' true, RTok.star .ws] ++ lits "poweroff" true]

/-- One entry of `containsDangerousPatterns`: a pattern (alternation expanded
into token sequences) and its display name. -/
structure DangerEntry where
  alts : List (List RTok)
  name : List Char

/-- The `dangerousPatterns` table of `ShellCommandParser.containsDangerousPatterns`. -/
def dangerousPatternList : List DangerEntry :=
  [⟨[[RTok.bound] ++ lits "rm" false ++ [RTok.plus .ws, RTok.lit '-' false, RTok.lit 'r' false,
      RTok.opt 'f' false, RTok.plus .ws, RTok.lit '/' false]], "rm -rf /".toList⟩,
   ⟨[[RTok.bound] ++ lits "dd" false ++ [RTok.plus .ws] ++ lits "if=/dev/zero" false],
     "dd overwrite".toList⟩,
   ⟨[[RTok.bound] ++ lits "mkfs" false], "filesystem format".toList⟩,
   ⟨[[RTok.bound] ++ lits "shutdown" false ++ [RTok.bound],
     [RTok.bound] ++ lits "reboot" false ++ [RTok.bound],
     [RTok.bound] ++ lits "halt" false ++ [RTok.bound],
     [RTok.bound] ++ lits "poweroff" false ++ [RTok.bound]], "system shutdown".toList⟩,
   ⟨[[RTok.bound] ++ lits "kill" false ++ [RTok.plus .ws] ++ lits "-9" false ++ [RTok.plus .ws],
     [RTok.bound] ++ lits "killall" false ++ [RTok.plus .ws] ++ lits "-9" false ++
       [RTok.plus .ws]], "force kill".toList⟩,
   ⟨[[RTok.bound] ++ lits "nc" false ++ [RTok.plus .ws] ++ lits "-l" false],
     "netcat listener".toList⟩,
   ⟨[[RTok.bound] ++ lits "curl" false ++ [RTok.plus .ws, RTok.star .dot, RTok.lit '|' false,
      RTok.star .ws] ++ lits "sh" false], "curl pipe to shell".toList⟩,
   ⟨[[RTok.bound] ++ lits "wget" false ++ [RTok.plus .ws, RTok.star .dot, RTok.lit '|' false,
      RTok.star .ws] ++ lits "sh" false], "wget pipe to shell".toList⟩,
   ⟨[[RTok.bound] ++ lits "sudo" false ++ [RTok.plus .ws]], "sudo usage".toList⟩,
   ⟨[[RTok.bound] ++ lits "su" false ++ [RTok.plus .ws]], "su usage".toList⟩,
   ⟨[[RTok.bound] ++ lits "chmod" false ++ [RTok.plus .ws] ++ lits "+s" false],
     "setuid".toList⟩,
   ⟨[lits ":()\x7b:" false, lits ":|:&\x7d" false], "fork bomb".toList⟩,
   ⟨[[RTok.lit '>' false, RTok.star .ws] ++ lits "/dev/sda" false,
     [RTok.lit '>' false, RTok.star .ws] ++ lits "/dev/hda" false,
     [RTok.lit '>' false, RTok.star .ws] ++ lits "/dev/nvme" false], "device write".toList⟩]

/-- `ShellCommandParser.containsDangerousPatterns`. -/
def containsDangerousPatterns (command : List Char) : Bool × List (List Char) :=
  ((dangerousPatternList.filter
      (fun e => e.alts.any (fun a => regexTest a command))).map (fun e => e.name) ≠ [],
   (dangerousPatternList.filter
      (fun e => e.alts.any (fun a => regexTest a command))).map (fun e => e.name))

/-- The `homoglyphMappings` table of `containsHomoglyphs`: for each key
character, the code points of its homoglyph character class (one class per
entry in the source).  The uppercase-key rows are unreachable (lookups use
the lowercased character) but are transcribed for completeness. -/
def homoglyphSets : Char → List (List Nat)
  | 'a' => [[0x430, 0x251, 0x252, 0x3B1, 0x433]]
  | 'b' => [[0x184, 0x185, 0x3B2, 0x432, 0x13CF, 0x15AF]]
  | 'c' => [[0x441, 0x3F2, 0x188, 0x21BB]]
  | 'd' => [[0x501, 0x256, 0x257, 0x18C]]
  | 'e' => [[0x435, 0x454, 0x4BD, 0x3B5]]
  | 'g' => [[0x261, 0x1E5, 0x123]]
  | 'h' => [[0x4BB, 0x4C2, 0x570]]
  | 'i' => [[0x456, 0x4CF, 0x269, 0x3B9]]
  | 'j' => [[0x458, 0x3F3, 0x135]]
  | 'k' => [[0x3BA, 0x43A, 0x49B, 0x49D]]
  | 'l' => [[0x49, 0x6C, 0x31, 0x1C0, 0x4C0, 0x399]]
  | 'm' => [[0x43C, 0x3BC, 0x271]]
  | 'n' => [[0x43F, 0x578, 0x57C]]
  | 'o' => [[0x43E, 0x3BF, 0x3C3, 0x585, 0x5E1]]
  | 'p' => [[0x440, 0x3C1, 0x420, 0x2374]]
  | 'r' => [[0x433, 0x491, 0x280]]
  | 's' => [[0x455, 0x5E1]]
  | 't' => [[0x3C4, 0x442]]
  | 'u' => [[0x3C5, 0x57D, 0x446]]
  | 'v' => [[0x3BD, 0x474, 0x5D8]]
  | 'w' => [[0x3C9, 0x448, 0x51C]]
  | 'x' => [[0x445, 0x3C7, 0x4B3]]
  | 'y' => [[0x443, 0x4AF, 0x4B1]]
  | 'z' => [[0x290, 0x291]]
  | 'A' => [[0x391, 0x410, 0x13AA]]
  | 'B' => [[0x392, 0x412, 0x13F4]]
  | 'C' => [[0x421, 0x3F9, 0x216D]]
  | 'E' => [[0x395, 0x415, 0x13AC]]
  | 'H' => [[0x397, 0x41D, 0x13BB]]
  | 'I' => [[0x406, 0x4C0, 0x399]]
  | 'K' => [[0x39A, 0x41A, 0x13E6]]
  | 'M' => [[0x39C, 0x41C, 0x13B7]]
  | 'N' => [[0x39D, 0x13C0]]
  | 'O' => [[0x39F, 0x41E, 0x13C1]]
  | 'P' => [[0x3A1, 0x420, 0x13E2]]
  | 'T' => [[0x3A4, 0x422, 0x13D9]]
  | 'X' => [[0x3A7, 0x425, 0x13B3]]
  | 'Y' => [[0x3A5, 0x4AE]]
  | '0' => [[0x3BF, 0x43E, 0x585, 0x6F0]]
  | '1' => [[0x49, 0x6C, 0x31, 0x1C0]]
  | '3' => [[0x417, 0x4E0]]
  | '4' => [[0x13CE]]
  | '6' => [[0x13EE]]
  | '8' => [[0x222, 0x223]]
  | _ => []

/-- The `scriptRanges` of the mixed-script check (`latin`, `cyrillic`,
`greek`, `arabic`, `hebrew`, `armenian`, `cherokee`). -/
def scriptPreds : List (Char → Bool) :=
  [fun c => (decide ('a' ≤ c) && decide (c ≤ 'z')) || (decide ('A' ≤ c) && decide (c ≤ 'Z')),
   fun c => decide (0x400 ≤ c.toNat) && decide (c.toNat ≤ 0x4FF),
   fun c => decide (0x370 ≤ c.toNat) && decide (c.toNat ≤ 0x3FF),
   fun c => decide (0x600 ≤ c.toNat) && decide (c.toNat ≤ 0x6FF),
   fun c => decide (0x590 ≤ c.toNat) && decide (c.toNat ≤ 0x5FF),
   fun c => decide (0x530 ≤ c.toNat) && decide (c.toNat ≤ 0x58F),
   fun c => decide (0x13A0 ≤ c.toNat) && decide (c.toNat ≤ 0x13FF)]

/-- `SecurityManager.containsHomoglyphs`: some character of the text has a
homoglyph class (keyed by its lowercased form) matching some character of
the text, or at least two of the script ranges occur in the text. -/
def containsHomoglyphs (text : List Char) : Bool :=
  (text.any fun ch =>
    (homoglyphSets (asciiLower ch)).any fun cls => text.any fun c2 => cls.contains c2.toNat) ||
    decide (2 ≤ scriptPreds.countP (fun p => text.any p))

inductive PolicyMode where
  | allowlist
  | denylist
  | none
deriving DecidableEq, Repr

structure CommandPolicy where
  mode : PolicyMode
  patterns : List (List Char)

structure PathPolicy where
  deniedPaths : List (List Char)

structure SecurityConfig where
  enabled : Bool
  allowRoot : Bool
  defaultUser : Option (List Char)
  commandPolicy : CommandPolicy
  pathPolicy : PathPolicy
  deniedFlags : List (List Char)

structure RateLimitsConfig where
  enabled : Bool
  execPerMinute : Nat
  logsPerMinute : Nat

structure ConfigM where
  security : SecurityConfig
  rateLimits : RateLimitsConfig

structure SecurityCheckResult where
  allowed : Bool
  reason : Option (List Char)
deriving DecidableEq, Repr

/-- JS string truthiness for an optional string: `undefined` and `""` are
falsy, every other string truthy. -/
def strTruthy : Option (List Char) → Bool
  | Option.none => false
  | some s => ! s.isEmpty

/-- The decimal digits of `n` as characters. -/
def natStr (n : Nat) : List Char := (natDigits n).map Char.ofNat

/-- The outcome of `DistributedRateLimiter.checkLimit` (an external call),
plus the ISO timestamp the reason embeds. -/
structure RateLimitOutcome where
  allowed : Bool
  current : Nat
  limit : Nat
  resetAtIso : List Char

/-- `SecurityManager.checkRateLimit` for operation `exec`; `rl` is `none`
when the rate limiter is not initialized (the request is then allowed). -/
def checkRateLimit (cfg : RateLimitsConfig) (rl : Option RateLimitOutcome) :
    SecurityCheckResult :=
  if ¬ cfg.enabled then ⟨true, Option.none⟩
  else
    match rl with
    | Option.none => ⟨true, Option.none⟩
    | some r =>
      if ¬ r.allowed then
        ⟨false, some ("Rate limit exceeded: ".toList ++ natStr r.current ++ "/".toList ++
          natStr r.limit ++ " execs per minute. Reset at ".toList ++ r.resetAtIso)⟩
      else ⟨true, Option.none⟩

/-- `SecurityManager.checkUser`. -/
def checkUser (sec : SecurityConfig) (user : Option (List Char)) : SecurityCheckResult :=
  if ¬ strTruthy user ∧ strTruthy sec.defaultUser then ⟨true, Option.none⟩
  else if (user = some "root".toList ∨ user = some "0".toList ∨ ¬ strTruthy user) ∧
      ¬ sec.allowRoot then
    ⟨false,
     some "Root user execution not allowed. Set MCP_DOCKER_ALLOW_ROOT=true to enable.".toList⟩
  else ⟨true, Option.none⟩

/-- `SecurityManager.checkShellInjection`. -/
def checkShellInjection (cmd : List (List Char)) : SecurityCheckResult :=
  if injectionPatterns.any (fun p => regexTest p (joinSpace cmd)) then
    ⟨false, some "Potential shell injection detected".toList⟩
  else if containsHomoglyphs (joinSpace cmd) then
    ⟨false, some "Unicode homoglyphs detected in command".toList⟩
  else ⟨true, Option.none⟩

/-- `SecurityManager.checkPatternMatch`.  The `new RegExp(pattern, 'i')`
test of a configured pattern string is a host regex engine call and is
modelled by the oracle `rtest` (pattern, full command ↦ match?).  (For an
empty `cmd` the source interpolates the string `undefined` into the
reason; here the reason carries the empty string.) -/
def checkPatternMatch (rtest : List Char → List Char → Bool) (cmd : List (List Char))
    (patterns : List (List Char)) (mode : PolicyMode) : SecurityCheckResult :=
  if mode = PolicyMode.allowlist then
    if patterns.any (fun p => rtest p (joinSpace cmd)) then ⟨true, Option.none⟩
    else ⟨false, some ("Command not in allowlist: ".toList ++ cmd.headD [])⟩
  else
    if patterns.any (fun p => rtest p (joinSpace cmd)) then
      ⟨false, some ("Command matches denylist: ".toList ++ cmd.headD [])⟩
    else ⟨true, Option.none⟩

def dangerousShells : List (List Char) :=
  ["sh".toList, "bash".toList, "zsh".toList, "ash".toList, "dash".toList, "ksh".toList,
   "csh".toList, "tcsh".toList]

/-- `SecurityManager.checkCommandPolicy`.  With mode `none` (or no
patterns) it returns immediately, before the shell-injection scan. -/
def checkCommandPolicy (rtest : List Char → List Char → Bool) (sec : SecurityConfig)
    (cmd : List (List Char)) : SecurityCheckResult :=
  if sec.commandPolicy.mode = PolicyMode.none ∨ sec.commandPolicy.patterns.isEmpty then
    ⟨true, Option.none⟩
  else if ¬ (checkShellInjection cmd).allowed then checkShellInjection cmd
  else if dangerousShells.contains (cmd.headD []) ∧ cmd.contains "-c".toList then
    if cmd.indexOf "-c".toList + 1 < cmd.length then
      if ¬ (ShellCommandParser.parse (cmd.getD (cmd.indexOf "-c".toList + 1) [])).suspicious.isEmpty
      then
        ⟨false, some ("Command substitution detected: ".toList ++
          List.intercalate ", ".toList
            (ShellCommandParser.parse (cmd.getD (cmd.indexOf "-c".toList + 1) [])).suspicious ++
          ". This could be used to bypass security policies.".toList)⟩
      else if (containsDangerousPatterns (cmd.getD (cmd.indexOf "-c".toList + 1) [])).1 then
        ⟨false, some ("Dangerous command pattern detected: ".toList ++
          List.intercalate ", ".toList
            (containsDangerousPatterns (cmd.getD (cmd.indexOf "-c".toList + 1) [])).2)⟩
      else
        match (ShellCommandParser.parse (cmd.getD (cmd.indexOf "-c".toList + 1) [])).commands.find?
            (fun subCmd =>
              ! (checkPatternMatch rtest [subCmd] sec.commandPolicy.patterns
                  sec.commandPolicy.mode).allowed) with
        | some subCmd =>
          ⟨false, some ("Shell command blocked: ".toList ++
            (checkPatternMatch rtest [subCmd] sec.commandPolicy.patterns
              sec.commandPolicy.mode).reason.getD [])⟩
        | Option.none =>
          checkPatternMatch rtest cmd sec.commandPolicy.patterns sec.commandPolicy.mode
    else checkPatternMatch rtest cmd sec.commandPolicy.patterns sec.commandPolicy.mode
  else checkPatternMatch rtest cmd sec.commandPolicy.patterns sec.commandPolicy.mode

/-- JS `String.prototype.includes`: contiguous substring test. -/
def jsIncludes (needle : List Char) : List Char → Bool
  | [] => needle.isEmpty
  | c :: rest => needle.isPrefixOf (c :: rest) || jsIncludes needle rest

/-- `SecurityManager.checkDangerousFlags`. -/
def checkDangerousFlags (sec : SecurityConfig) (cmd : List (List Char)) : SecurityCheckResult :=
  match sec.deniedFlags.find? (fun flag => jsIncludes flag (joinSpace cmd)) with
  | some flag => ⟨false, some ("Dangerous flag detected: ".toList ++ flag)⟩
  | Option.none => ⟨true, Option.none⟩

def readOnlyCmds : List (List Char) :=
  ["ls".toList, "cat".toList, "head".toList, "tail".toList, "grep".toList, "find".toList]

/-- `SecurityManager.checkPaths`: a referenced denied path is blocked
unless the binary is one of the read-only commands. -/
def checkPaths (sec : SecurityConfig) (cmd : List (List Char)) : SecurityCheckResult :=
  match sec.pathPolicy.deniedPaths.find? (fun p =>
      jsIncludes p (joinSpace cmd) &&
        ! (match cmd with
           | [] => false
           | b :: _ => readOnlyCmds.contains b)) with
  | some p => ⟨false, some ("Access to ".toList ++ p ++ " is restricted".toList)⟩
  | Option.none => ⟨true, Option.none⟩

/-- `SecurityManager.checkCommand`: the sequential short-circuit of the
five checks, gated on `security.enabled`. -/
def checkCommand (rtest : List Char → List Char → Bool) (cfg : ConfigM)
    (rl : Option RateLimitOutcome) (cmd : List (List Char)) (user : Option (List Char)) :
    SecurityCheckResult :=
  if ¬ cfg.security.enabled then ⟨true, Option.none⟩
  else if ¬ (checkRateLimit cfg.rateLimits rl).allowed then checkRateLimit cfg.rateLimits rl
  else if ¬ (checkUser cfg.security user).allowed then checkUser cfg.security user
  else if ¬ (checkCommandPolicy rtest cfg.security cmd).allowed then
    checkCommandPolicy rtest cfg.security cmd
  else if ¬ (checkDangerousFlags cfg.security cmd).allowed then
    checkDangerousFlags cfg.security cmd
  else if ¬ (checkPaths cfg.security cmd).allowed then checkPaths cfg.security cmd
  else ⟨true, Option.none⟩

/-- A configuration with security enabled but command-policy mode `none`
(the shipped default mode), non-empty configured patterns, default denied
paths and flags, rate limits disabled, and no default user. -/
def cfgModeNone : ConfigM :=
  ⟨⟨true, false, Option.none, ⟨PolicyMode.none, ["rm -rf".toList]⟩,
    ⟨["/proc".toList, "/sys".toList, "/dev".toList]⟩,
    ["--privileged".toList, "--pid=host".toList, "--net=host".toList]⟩,
   ⟨false, 60, 30⟩⟩

/-- C1: refuted as claimed — the shell-injection/homoglyph scan lives inside
`checkCommandPolicy` AFTER its mode-`none`/empty-patterns early return, so
with mode `none` a `sh -c` command carrying a classic injection signature
(`; rm -rf /`) is fully allowed by `checkCommand`, even though
`checkShellInjection` itself would deny exactly this command vector.  This
contradicts the spec and the repository's own fix notes (the scan is
bypassable by policy mode `none`). -/
theorem securityManager_mode_none_skips_injection_scan :
    (checkShellInjection ["sh".toList, "-c".toList, "echo hi; rm -rf /".toList]).allowed
        = false ∧
    (checkShellInjection ["sh".toList, "-c".toList, "echo hi; rm -rf /".toList]).reason
        = some "Potential shell injection detected".toList ∧
    checkCommand (fun _ _ => false) cfgModeNone Option.none
        ["sh".toList, "-c".toList, "echo hi; rm -rf /".toList] (some "nobody".toList)
      = ⟨true, Option.none⟩ := by
  refine ⟨by decide, by decide, by decide⟩

/-- A configuration with security enabled, root not allowed, a configured
`defaultUser` of `node`, and everything else permissive. -/
def cfgDefaultUser : ConfigM :=
  ⟨⟨true, false, some "node".toList, ⟨PolicyMode.denylist, []⟩, ⟨[]⟩, []⟩, ⟨false, 60, 30⟩⟩

/-- C6 counterexample: with a truthy `defaultUser` configured, an absent
user is NOT denied — `checkUser` returns allowed before the root check, and
`checkCommand` allows the request even though root execution is not
enabled.  The claim's "denies when the user is absent" holds only when no
default user is configured. -/
theorem securityManager_absent_user_allowed_cex :
    checkCommand (fun _ _ => false) cfgDefaultUser Option.none ["whoami".toList] Option.none
      = ⟨true, Option.none⟩ ∧
    cfgDefaultUser.security.enabled = true ∧
    cfgDefaultUser.security.allowRoot = false ∧
    checkUser cfgDefaultUser.security Option.none = ⟨true, Option.none⟩ := by
  refine ⟨by decide, by decide, by decide, by decide⟩

/-- C6 (amended): with security enabled and root execution not allowed,
`checkCommand` always denies a user of `"root"` or `"0"`; it denies an
absent (or empty) user exactly when no truthy `defaultUser` is configured;
with a truthy `defaultUser`, `checkUser` allows the absent user. -/
theorem securityManager_root_denied_amended (rtest : List Char → List Char → Bool)
    (cfg : ConfigM) (rl : Option RateLimitOutcome) (cmd : List (List Char))
    (user : Option (List Char))
    (hen : cfg.security.enabled = true) (hroot : cfg.security.allowRoot = false) :
    ((user = some "root".toList ∨ user = some "0".toList) →
      (checkCommand rtest cfg rl cmd user).allowed = false) ∧
    (strTruthy user = false → strTruthy cfg.security.defaultUser = false →
      (checkCommand rtest cfg rl cmd user).allowed = false) ∧
    (strTruthy user = false → strTruthy cfg.security.defaultUser = true →
      checkUser cfg.security user = ⟨true, Option.none⟩) := by
  refine ⟨?_, ?_, ?_⟩
  · intro hu
    have huser : (checkUser cfg.security user).allowed = false := by
      rcases hu with rfl | rfl <;> simp [checkUser, strTruthy, hroot]
    by_cases hr : (checkRateLimit cfg.rateLimits rl).allowed
    · simp [checkCommand, hen, hr, huser]
    · have hr2 : (checkRateLimit cfg.rateLimits rl).allowed = false := by simpa using hr
      simp [checkCommand, hen, hr2]
  · intro hu hd
    have huser : (checkUser cfg.security user).allowed = false := by
      simp [checkUser, hu, hd, hroot]
    by_cases hr : (checkRateLimit cfg.rateLimits rl).allowed
    · simp [checkCommand, hen, hr, huser]
    · have hr2 : (checkRateLimit cfg.rateLimits rl).allowed = false := by simpa using hr
      simp [checkCommand, hen, hr2]
  · intro hu hd
    simp [checkUser, hu, hd]

theorem securityManager_root_denied_amended_witness :
    (checkCommand (fun _ _ => false) cfgModeNone Option.none ["whoami".toList]
        (some "root".toList)).allowed = false :=
  (securityManager_root_denied_amended (fun _ _ => false) cfgModeNone Option.none
      ["whoami".toList] (some "root".toList) rfl rfl).1 (Or.inl rfl)
